import Mathlib

/-!
# Tree-connect management of the SMB server (`mgmt/tree_connect.c`)

A shallow embedding of `ksmbd_tree_conn_connect`, `ksmbd_tree_connect_put`,
`ksmbd_tree_conn_lookup`, `ksmbd_tree_conn_disconnect` and
`ksmbd_tree_conn_session_logoff`, followed by the properties proved about them.

Representation choices.

* A pointer is `Option Nat`: `none` is `NULL`, `some a` is the address `a`.
* The intrusive list `sess->tree_conn_list` is a list of pairs (address, object),
  head first; an entry is the object that lives at that address.
* `atomic_t` counters and `int` ids are integers (`Int`).  The 32 bit range of
  the C types is not modelled: a count stands for a number of holders.
* Every answer that comes from outside this file (memory allocator, id allocator,
  IPC channel, user-space share daemon) is a field of `Collaborators`; the
  theorems quantify over all of them.
* `ksmbd_tree_conn_lookup` declares `tcon` without an initialiser.  The value
  the variable holds on entry is the argument `tcon_uninit`.
* A call is run with no other task (`outcome` tells how it ends: it returns, it
  sleeps in `wait_event`, it dereferences a wild pointer, or its loop is still
  running when the fuel is used up).  Several tasks on one tree connect are the
  interleavings of `race_step`, one step per atomic operation on the refcount.
* The lock discipline is read off the sequence of lock and list operations of each
  function (`lock_event`).
-/

namespace TreeConnect

/-! ## Constants -/

/-- Linux errno `ENOENT`. -/
def ENOENT : Int := 2

/-- Linux errno `ENOMEM`. -/
def ENOMEM : Int := 12

/-- Linux errno `EINVAL`. -/
def EINVAL : Int := 22

/-- Linux errno `ESTALE`. -/
def ESTALE : Int := 116

/-- Modelled from the spec: the header that defines `KSMBD_TREE_CONN_STATUS_OK` is not
under `src/`; the spec calls it the channel's "OK" status.  It is the first member of
the status enumeration. -/
def KSMBD_TREE_CONN_STATUS_OK : Int := 0

/-- Modelled from the spec: the header that defines `KSMBD_TREE_CONN_FLAG_UPDATE` is not
under `src/`; the spec describes it as the flag bit "share config needs refresh".  No
proof below depends on which bit it is. -/
def KSMBD_TREE_CONN_FLAG_UPDATE : Nat := 16

/-! ## Data model -/

/-- The values of `t_state`. -/
inductive tree_state where
  | TREE_NEW
  | TREE_CONNECTED
  | TREE_DISCONNECTED
  deriving DecidableEq, Repr

open tree_state

/-- The fields of `struct ksmbd_tree_connect` that `tree_connect.c` reads or writes.
`share_conf` and `user` are pointers; `refcount_q` is the number of tasks sleeping on
the wait queue. -/
structure ksmbd_tree_connect where
  id : Int
  flags : Nat
  share_conf : Option Nat
  user : Option Nat
  t_state : tree_state
  refcount : Int
  refcount_q : Nat
  deriving DecidableEq, Repr

/-- The fields of `struct ksmbd_session` that `tree_connect.c` uses: the session id,
the user, the set of tree ids currently held in the id space, and the list of tree
connects (address, object), head first. -/
structure ksmbd_session where
  id : Nat
  user : Option Nat
  tree_conn_ida : Finset Int
  tree_conn_list : List (Nat × ksmbd_tree_connect)
  deriving DecidableEq

/-- The reply of the IPC channel to a tree connect request. -/
structure ksmbd_tree_connect_response where
  status : Int
  connection_flags : Nat
  deriving DecidableEq, Repr

/-- The value returned by `ksmbd_tree_conn_connect`. -/
structure ksmbd_tree_conn_status where
  ret : Int
  tree_conn : Option Nat
  deriving DecidableEq, Repr

/-- Modelled from the spec: the share-config provider (`share_config.c`) is not under
`src/`.  The spec gives `resolve(manager, name) -> SharedHandle|NotFound` and
`release(handle)` on reference-counted handles.  The provider is a table of the
configurations that resolve by name (name, handle), a reference count per handle and
the next unused handle. -/
structure share_table where
  shares : List (String × Nat)
  refcount : Nat → Int
  next : Nat

/-- The state the functions of this file act on: the share configurations and one
session. -/
structure World where
  shares : share_table
  sess : ksmbd_session

/-- The answers of the collaborators during one call of `ksmbd_tree_conn_connect`, in
the order the source asks for them. -/
structure Collaborators where
  /-- whether user space supplies the configuration when the first resolve misses -/
  share_reply : Bool
  /-- the result of `ksmbd_zalloc`: `NULL` or the address of the zeroed block -/
  zalloc : Option Nat
  /-- the result of `ksmbd_acquire_tree_conn_id` -/
  acquire : Int
  /-- the result of `ksmbd_ipc_tree_connect_request` -/
  ipc_resp : Option ksmbd_tree_connect_response
  /-- whether user space supplies the configuration when the second resolve misses -/
  share_reply_again : Bool

/-! ## Collaborators -/

/-- Modelled from the spec: `ksmbd_share_config_get` is not under `src/`.  The spec:
"Resolves `shareName` to a share-configuration handle ...; fails with `NotFound` if
absent", the handle being reference counted.  A name in the table resolves to its
handle; a name not in the table resolves to a new handle when user space supplies the
configuration (`daemon_has`), and to `NULL` otherwise.  The caller receives one
reference. -/
def ksmbd_share_config_get (tbl : share_table) (daemon_has : Bool) (name : String) :
    share_table × Option Nat :=
  match tbl.shares.find? (fun e => e.1 = name) with
  | some e =>
    ({ tbl with refcount := fun h => if h = e.2 then tbl.refcount h + 1 else tbl.refcount h },
      some e.2)
  | none =>
    if daemon_has then
      ({ shares := (name, tbl.next) :: tbl.shares,
         refcount := fun h => if h = tbl.next then tbl.refcount h + 1 else tbl.refcount h,
         next := tbl.next + 1 },
        some tbl.next)
    else (tbl, none)

/-- Modelled from the spec: `ksmbd_share_config_put` is not under `src/`.  The spec:
`release(handle)` gives one reference back.  A configuration whose last reference is
given back no longer resolves by name. -/
def ksmbd_share_config_put (tbl : share_table) (sc : Nat) : share_table :=
  let rc : Nat → Int := fun h => if h = sc then tbl.refcount h - 1 else tbl.refcount h
  if tbl.refcount sc - 1 = 0 then
    { tbl with refcount := rc, shares := tbl.shares.filter (fun e => e.2 ≠ sc) }
  else { tbl with refcount := rc }

/-- Modelled from the spec: `ksmbd_share_config_del` is not under `src/` and the
provider interface of the spec has no entry for it.  The source calls it on the stale
configuration before it resolves the name again, and gives the stale reference back
with a separate `ksmbd_share_config_put`.  The stale configuration is taken out of the
table, so that it no longer resolves by name; no reference count changes. -/
def ksmbd_share_config_del (tbl : share_table) (sc : Nat) : share_table :=
  { tbl with shares := tbl.shares.filter (fun e => e.2 ≠ sc) }

/-- Modelled from the spec: `ksmbd_acquire_tree_conn_id` is not under `src/`.  The spec:
`acquire() -> id|Exhausted`.  `answer` is what the allocator returns: a negative value
when the space is exhausted, otherwise the id, which is then held. -/
def ksmbd_acquire_tree_conn_id (sess : ksmbd_session) (answer : Int) : ksmbd_session × Int :=
  if 0 ≤ answer then
    ({ sess with tree_conn_ida := insert answer sess.tree_conn_ida }, answer)
  else (sess, answer)

/-- Modelled from the spec: `ksmbd_release_tree_conn_id` is not under `src/`.  The spec:
`release(id)`; the id is no longer held. -/
def ksmbd_release_tree_conn_id (sess : ksmbd_session) (id : Int) : ksmbd_session :=
  { sess with tree_conn_ida := sess.tree_conn_ida.erase id }

/-- The block `ksmbd_zalloc` returns: every field is zero. -/
def zeroed_tree_connect : ksmbd_tree_connect :=
  { id := 0, flags := 0, share_conf := none, user := none, t_state := TREE_NEW,
    refcount := 0, refcount_q := 0 }

/-- The helper `test_tree_conn_flag` of `tree_connect.h`: `tree_conn->flags & flag`. -/
def test_tree_conn_flag (tree_conn : ksmbd_tree_connect) (flag : Nat) : Bool :=
  (tree_conn.flags &&& flag) != 0

/-- The kernel primitive `atomic_inc_not_zero`: adds one unless the counter is zero;
returns whether it added, and the new value. -/
def atomic_inc_not_zero (v : Int) : Bool × Int :=
  if v = 0 then (false, v) else (true, v + 1)

/-- The kernel primitive `atomic_dec_return`: subtracts one and returns the new value. -/
def atomic_dec_return (v : Int) : Int := v - 1

/-! ## `ksmbd_tree_conn_connect` -/

/-- The label `out_error` of `ksmbd_tree_conn_connect`: release the id when a tree
connect was allocated, give the share reference back, free the tree connect and the
response, return `status` (whose `tree_conn` is still `NULL`). -/
def out_error (shares : share_table) (sess : ksmbd_session)
    (tree_conn : Option (Nat × ksmbd_tree_connect)) (sc : Nat) (ret : Int) :
    World × ksmbd_tree_conn_status :=
  let sess1 :=
    match tree_conn with
    | some tc => ksmbd_release_tree_conn_id sess tc.2.id
    | none => sess
  ({ shares := ksmbd_share_config_put shares sc, sess := sess1 },
    { ret := ret, tree_conn := none })

/-- Lines 74 to 83 of `ksmbd_tree_conn_connect`: fill in the tree connect, link it at
the head of the session list, return it. -/
def connect_finish (shares : share_table) (sess : ksmbd_session) (p : Nat)
    (tree_conn : ksmbd_tree_connect) (sc : Nat) (ret : Int) :
    World × ksmbd_tree_conn_status :=
  let tc : ksmbd_tree_connect :=
    { tree_conn with
      user := sess.user, share_conf := some sc, t_state := TREE_NEW,
      refcount := 1, refcount_q := 0 }
  ({ shares := shares, sess := { sess with tree_conn_list := (p, tc) :: sess.tree_conn_list } },
    { ret := ret, tree_conn := some p })

/-- The function `ksmbd_tree_conn_connect`. -/
def ksmbd_tree_conn_connect (env : Collaborators) (w : World) (share_name : String) :
    World × ksmbd_tree_conn_status :=
  match ksmbd_share_config_get w.shares env.share_reply share_name with
  | (sh0, none) => ({ w with shares := sh0 }, { ret := -ENOENT, tree_conn := none })
  | (sh1, some sc) =>
    match env.zalloc with
    | none => out_error sh1 w.sess none sc (-ENOMEM)
    | some p =>
      let acq := ksmbd_acquire_tree_conn_id w.sess env.acquire
      let tc0 : ksmbd_tree_connect := { zeroed_tree_connect with id := acq.2 }
      if tc0.id < 0 then out_error sh1 acq.1 (some (p, tc0)) sc (-EINVAL)
      else
        match env.ipc_resp with
        | none => out_error sh1 acq.1 (some (p, tc0)) sc (-EINVAL)
        | some resp =>
          if resp.status ≠ KSMBD_TREE_CONN_STATUS_OK then
            out_error sh1 acq.1 (some (p, tc0)) sc resp.status
          else
            let tc1 : ksmbd_tree_connect := { tc0 with flags := resp.connection_flags }
            if test_tree_conn_flag tc1 KSMBD_TREE_CONN_FLAG_UPDATE then
              let sh2 := ksmbd_share_config_del sh1 sc
              match ksmbd_share_config_get sh2 env.share_reply_again share_name with
              | (sh3, none) => out_error sh3 acq.1 (some (p, tc1)) sc (-ESTALE)
              | (sh3, some new_sc) =>
                connect_finish (ksmbd_share_config_put sh3 sc) acq.1 p tc1 new_sc resp.status
            else connect_finish sh1 acq.1 p tc1 sc resp.status

/-! ## `ksmbd_tree_connect_put` -/

/-- The function `ksmbd_tree_connect_put` on the object `tcon` points to: the new
object, and whether `wake_up` was called on its wait queue. -/
def ksmbd_tree_connect_put (tcon : ksmbd_tree_connect) : ksmbd_tree_connect × Bool :=
  let r := atomic_dec_return tcon.refcount
  ({ tcon with refcount := r }, decide (r = 0) && decide (0 < tcon.refcount_q))

/-! ## Memory access through a tree connect pointer -/

/-- The object a tree connect pointer points to, if it is one of the session. -/
def tree_at (sess : ksmbd_session) (p : Nat) : Option ksmbd_tree_connect :=
  (sess.tree_conn_list.find? (fun e => e.1 = p)).map (fun e => e.2)

/-- Store `t` as the object at address `p`. -/
def store_tree (sess : ksmbd_session) (p : Nat) (t : ksmbd_tree_connect) : ksmbd_session :=
  { sess with
    tree_conn_list := sess.tree_conn_list.map (fun e => if e.1 = p then (e.1, t) else e) }

/-- The call `ksmbd_tree_connect_put(tcon)` for a pointer `tcon` into the session;
`none` when the pointer is not one of the session. -/
def put_at (sess : ksmbd_session) (tcon : Nat) : Option (ksmbd_session × Bool) :=
  match tree_at sess tcon with
  | none => none
  | some t => some (store_tree sess tcon (ksmbd_tree_connect_put t).1, (ksmbd_tree_connect_put t).2)

/-! ## `ksmbd_tree_conn_lookup` -/

/-- The function `ksmbd_tree_conn_lookup`.  `tcon_uninit` is the value of the local
`tcon` on entry, which the source does not initialise.  The result is `none` when the
function dereferences a pointer that is not a tree connect of the session. -/
def ksmbd_tree_conn_lookup (sess : ksmbd_session) (id : Nat) (tcon_uninit : Option Nat) :
    Option (ksmbd_session × Option Nat) :=
  let tcon : Option (Option (Nat × ksmbd_tree_connect)) :=
    match sess.tree_conn_list.find? (fun e => e.2.id = (id : Int)) with
    | some e => some (some e)
    | none =>
      match tcon_uninit with
      | none => some none
      | some p => (tree_at sess p).map (fun t => some (p, t))
  match tcon with
  | none => none
  | some none => some (sess, none)
  | some (some (p, t)) =>
    if t.t_state ≠ TREE_CONNECTED then some (sess, none)
    else
      let inc := atomic_inc_not_zero t.refcount
      if inc.1 then some (store_tree sess p { t with refcount := inc.2 }, some p)
      else some (sess, none)

/-! ## `ksmbd_tree_conn_disconnect` -/

/-- The state `ksmbd_tree_conn_disconnect` and `ksmbd_tree_conn_session_logoff` act on:
the share configurations and the session (`w`), and the disconnect requests sent over
the IPC channel so far, as pairs (session id, tree id), oldest first. -/
structure Server where
  w : World
  requests : List (Nat × Int)

/-- Modelled from the spec: `ksmbd_ipc_tree_disconnect_request` is not under `src/`.  The
spec: `requestDisconnect(sessionId, treeId) -> status`.  The request is recorded; the
status of the request number `k`, counting from 0, is `reply k`. -/
def ksmbd_ipc_tree_disconnect_request (requests : List (Nat × Int)) (reply : Nat → Int)
    (sess_id : Nat) (tree_id : Int) : List (Nat × Int) × Int :=
  (requests ++ [(sess_id, tree_id)], reply requests.length)

/-- How a call ends when no other task runs. -/
inductive outcome where
  /-- the call returned `ret` -/
  | returned (sv : Server) (ret : Int)
  /-- the call sleeps in `wait_event` and no task is there to wake it -/
  | asleep (sv : Server)
  /-- the call dereferenced `NULL` or a pointer that is not a tree connect of the session -/
  | wild
  /-- the loop is still running after the given number of passes -/
  | still_running

/-- The kernel primitive `atomic_dec_and_test`: subtracts one; returns whether the new
value is zero, and the new value. -/
def atomic_dec_and_test (v : Int) : Bool × Int := (decide (v - 1 = 0), v - 1)

/-- Line 111 of `ksmbd_tree_conn_disconnect`: `atomic_dec_and_test` on the refcount of
the object `tree_conn` points to; `none` when the pointer is not one of the session. -/
def disconnect_dec (sess : ksmbd_session) (tree_conn : Nat) : Option (ksmbd_session × Bool) :=
  match tree_at sess tree_conn with
  | none => none
  | some t =>
    some (store_tree sess tree_conn { t with refcount := (atomic_dec_and_test t.refcount).2 },
      (atomic_dec_and_test t.refcount).1)

/-- Lines 114 to 121 of `ksmbd_tree_conn_disconnect`, the part after the wait: send the
disconnect request, release the id, take the object out of the list, give the share
reference back, free the object, return the status of the request. -/
def disconnect_cleanup (reply : Nat → Int) (sv : Server) (tree_conn : Nat) :
    Option (Server × Int) :=
  match tree_at sv.w.sess tree_conn with
  | none => none
  | some t =>
    let ipc := ksmbd_ipc_tree_disconnect_request sv.requests reply sv.w.sess.id t.id
    let sess1 := ksmbd_release_tree_conn_id sv.w.sess t.id
    let sess2 : ksmbd_session :=
      { sess1 with tree_conn_list := sess1.tree_conn_list.filter (fun e => e.1 ≠ tree_conn) }
    match t.share_conf with
    | none => none
    | some sc =>
      some ({ w := { shares := ksmbd_share_config_put sv.w.shares sc, sess := sess2 },
              requests := ipc.1 }, ipc.2)

/-- The task puts itself on the wait queue of the object `tree_conn` points to. -/
def enqueue_waiter (sess : ksmbd_session) (tree_conn : Nat) : ksmbd_session :=
  match tree_at sess tree_conn with
  | none => sess
  | some t => store_tree sess tree_conn { t with refcount_q := t.refcount_q + 1 }

/-- The function `ksmbd_tree_conn_disconnect`, run with no other task: when
`atomic_dec_and_test` does not reach zero, the call sleeps in `wait_event`, whose
condition stays false. -/
def ksmbd_tree_conn_disconnect (reply : Nat → Int) (sv : Server) (tree_conn : Nat) : outcome :=
  match disconnect_dec sv.w.sess tree_conn with
  | none => outcome.wild
  | some (sess1, true) =>
    match disconnect_cleanup reply { sv with w := { sv.w with sess := sess1 } } tree_conn with
    | none => outcome.wild
    | some (sv2, ret) => outcome.returned sv2 ret
  | some (sess1, false) =>
    outcome.asleep { sv with w := { sv.w with sess := enqueue_waiter sess1 tree_conn } }

/-! ## `ksmbd_tree_conn_session_logoff` -/

/-- The loop of `ksmbd_tree_conn_session_logoff`, run with no other task, for at most
`fuel` tests of the loop condition; `ret` is the value of the local `ret`. -/
def logoff_loop (reply : Nat → Int) : Nat → Server → Int → outcome
  | 0, _, _ => outcome.still_running
  | fuel + 1, sv, ret =>
    match sv.w.sess.tree_conn_list with
    | [] => outcome.returned sv ret
    | (p, tc) :: rest =>
      if tc.t_state = TREE_DISCONNECTED then logoff_loop reply fuel sv (-ENOENT)
      else
        let sess1 : ksmbd_session :=
          { sv.w.sess with
            tree_conn_list := (p, { tc with t_state := TREE_DISCONNECTED }) :: rest }
        match ksmbd_tree_conn_disconnect reply { sv with w := { sv.w with sess := sess1 } } p with
        | outcome.returned sv2 r => logoff_loop reply fuel sv2 (Int.lor ret r)
        | other => other

/-- The function `ksmbd_tree_conn_session_logoff`. -/
def ksmbd_tree_conn_session_logoff (reply : Nat → Int) (fuel : Nat) (sv : Server) : outcome :=
  logoff_loop reply fuel sv 0

/-! ## Sequences of calls -/

/-- A call of one of the five operations, with its arguments and, for a connect, the
answers of the collaborators. -/
inductive session_op where
  | connect (env : Collaborators) (share_name : String)
  | lookup (id : Nat) (tcon_uninit : Option Nat)
  | put (tcon : Nat)
  | disconnect (tree_conn : Nat)
  | logoff (fuel : Nat)

/-- The state after a call that returns.  The result is `none` when the call does not
return (it sleeps, loops or dereferences a wild pointer), and for a connect whose
allocators break their contract: the id allocator answers with an id that is held, or
the memory allocator with the address of a tree connect of the session. -/
def apply_op (reply : Nat → Int) : session_op → Server → Option Server
  | session_op.connect env share_name, sv =>
    if env.acquire ∈ sv.w.sess.tree_conn_ida then none
    else if ∃ e ∈ sv.w.sess.tree_conn_list, env.zalloc = some e.1 then none
    else some { sv with w := (ksmbd_tree_conn_connect env sv.w share_name).1 }
  | session_op.lookup id tcon_uninit, sv =>
    match ksmbd_tree_conn_lookup sv.w.sess id tcon_uninit with
    | none => none
    | some r => some { sv with w := { sv.w with sess := r.1 } }
  | session_op.put tcon, sv =>
    match put_at sv.w.sess tcon with
    | none => none
    | some r => some { sv with w := { sv.w with sess := r.1 } }
  | session_op.disconnect tree_conn, sv =>
    match ksmbd_tree_conn_disconnect reply sv tree_conn with
    | outcome.returned sv1 _ => some sv1
    | _ => none
  | session_op.logoff fuel, sv =>
    match ksmbd_tree_conn_session_logoff reply fuel sv with
    | outcome.returned sv1 _ => some sv1
    | _ => none

/-- The state after a sequence of calls that all return. -/
def run_ops (reply : Nat → Int) : List session_op → Server → Option Server
  | [], sv => some sv
  | op :: ops, sv =>
    match apply_op reply op sv with
    | none => none
    | some sv1 => run_ops reply ops sv1

/-! ## Interleavings on one tree connect -/

/-- Where the task that runs `ksmbd_tree_conn_disconnect` on the tree connect is: before
line 111; in `wait_event` (line 112) after an `atomic_dec_and_test` that did not reach
zero; past the wait and before the cleanup of lines 114 to 121; after `ksmbd_free`. -/
inductive disconnect_pc where
  | not_entered
  | waiting
  | past_wait
  | freed
  deriving DecidableEq, Repr

open disconnect_pc

/-- One tree connect shared by several tasks: the object, the place of the
disconnecting task, the number of lookups that returned the object and were not
followed by their put yet (`holders`), the number of decrements that brought the
refcount to zero (`zeros`) and the number of times `ksmbd_free` ran on the object
(`frees`). -/
structure race_state where
  tree : ksmbd_tree_connect
  pc : disconnect_pc
  holders : Nat
  zeros : Nat
  frees : Nat
  deriving DecidableEq, Repr

/-- The steps of the tasks: a `ksmbd_tree_conn_lookup` whose scan stops at the tree
connect, a `ksmbd_tree_connect_put` by a holder, the write of `TREE_DISCONNECTED` to
`t_state` (line 163), and the next step of the disconnecting task. -/
inductive race_event where
  | lookup
  | put
  | mark_disconnected
  | disconnect
  deriving DecidableEq, Repr

/-- One step; `none` when the step cannot be taken in this state: a put without a
holder, the disconnecting task asleep in `wait_event` while the refcount is not zero, or
finished.  A lookup after the object left the list does not reach it. -/
def race_step : race_event → race_state → Option race_state
  | race_event.lookup, s =>
    if s.pc = freed then some s
    else if s.tree.t_state ≠ TREE_CONNECTED then some s
    else if (atomic_inc_not_zero s.tree.refcount).1 then
      some { s with
             tree := { s.tree with refcount := (atomic_inc_not_zero s.tree.refcount).2 },
             holders := s.holders + 1 }
    else some s
  | race_event.put, s =>
    if s.holders = 0 then none
    else
      some { s with
             tree := (ksmbd_tree_connect_put s.tree).1,
             holders := s.holders - 1,
             zeros := s.zeros + if (ksmbd_tree_connect_put s.tree).1.refcount = 0 then 1 else 0 }
  | race_event.mark_disconnected, s =>
    some { s with tree := { s.tree with t_state := TREE_DISCONNECTED } }
  | race_event.disconnect, s =>
    match s.pc with
    | not_entered =>
      if (atomic_dec_and_test s.tree.refcount).1 then
        some { s with
               tree := { s.tree with refcount := (atomic_dec_and_test s.tree.refcount).2 },
               pc := past_wait,
               zeros := s.zeros + 1 }
      else
        some { s with
               tree := { s.tree with
                         refcount := (atomic_dec_and_test s.tree.refcount).2,
                         refcount_q := s.tree.refcount_q + 1 },
               pc := waiting }
    | waiting =>
      if s.tree.refcount = 0 then
        some { s with tree := { s.tree with refcount_q := s.tree.refcount_q - 1 },
                      pc := past_wait }
      else none
    | past_wait => some { s with pc := freed, frees := s.frees + 1 }
    | freed => none

/-- The state after a sequence of steps, when each can be taken. -/
def race_run : List race_event → race_state → Option race_state
  | [], s => some s
  | e :: es, s =>
    match race_step e s with
    | none => none
    | some s1 => race_run es s1

/-- A state before the disconnect is called: the refcount is one for the registration
plus one per holder, nothing reached zero, nothing was freed. -/
def race_start (s : race_state) : Prop :=
  s.pc = not_entered ∧ s.tree.refcount = (s.holders : Int) + 1 ∧ s.zeros = 0 ∧ s.frees = 0

instance (s : race_state) : Decidable (race_start s) := by
  unfold race_start; infer_instance

/-- The accounting that holds in every state of an interleaving. -/
def race_inv (s : race_state) : Prop :=
  match s.pc with
  | not_entered => s.tree.refcount = (s.holders : Int) + 1 ∧ s.zeros = 0 ∧ s.frees = 0
  | waiting =>
    s.tree.refcount = (s.holders : Int) ∧ s.zeros = (if s.tree.refcount = 0 then 1 else 0) ∧
      s.frees = 0
  | past_wait => s.tree.refcount = 0 ∧ s.holders = 0 ∧ s.zeros = 1 ∧ s.frees = 0
  | freed => s.tree.refcount = 0 ∧ s.holders = 0 ∧ s.zeros = 1 ∧ s.frees = 1

/-! ## Lock and list operations -/

/-- The operations on `sess->tree_conns_lock` and on `sess->tree_conn_list`. -/
inductive lock_event where
  | read_lock
  | read_unlock
  | write_lock
  | write_unlock
  | list_add
  | list_del
  | list_read
  deriving DecidableEq, Repr

/-- How the running task holds `tree_conns_lock`. -/
inductive lock_mode where
  | unlocked
  | reading
  | writing
  deriving DecidableEq, Repr

/-- Whether, in a sequence of operations of one task, every `list_add` and `list_del`
happens with the lock held for writing and every read of the list with the lock held
for reading or writing. -/
def lock_discipline : lock_mode → List lock_event → Bool
  | _, [] => true
  | _, lock_event.read_lock :: es => lock_discipline lock_mode.reading es
  | _, lock_event.read_unlock :: es => lock_discipline lock_mode.unlocked es
  | _, lock_event.write_lock :: es => lock_discipline lock_mode.writing es
  | _, lock_event.write_unlock :: es => lock_discipline lock_mode.unlocked es
  | m, lock_event.list_add :: es => decide (m = lock_mode.writing) && lock_discipline m es
  | m, lock_event.list_del :: es => decide (m = lock_mode.writing) && lock_discipline m es
  | m, lock_event.list_read :: es => decide (m ≠ lock_mode.unlocked) && lock_discipline m es

/-- The lock and list operations of `ksmbd_tree_conn_connect`, in program order: the
function takes no lock; on the path that returns `KSMBD_TREE_CONN_STATUS_OK` it calls
`list_add` (line 81). -/
def connect_lock_events (env : Collaborators) (w : World) (share_name : String) :
    List lock_event :=
  if (ksmbd_tree_conn_connect env w share_name).2.ret = KSMBD_TREE_CONN_STATUS_OK then
    [lock_event.list_add]
  else []

/-- The lock and list operations of `ksmbd_tree_conn_lookup`, in program order:
`read_lock` (line 131), the scan (lines 132 to 138), `read_unlock` (line 145). -/
def lookup_lock_events : List lock_event :=
  [lock_event.read_lock, lock_event.list_read, lock_event.read_unlock]

/-- The lock and list operations of `ksmbd_tree_conn_disconnect` after the wait, in
program order: `write_lock`, `list_del`, `write_unlock` (lines 116 to 118). -/
def disconnect_lock_events : List lock_event :=
  [lock_event.write_lock, lock_event.list_del, lock_event.write_unlock]

/-- The lock and list operations of one test of the loop condition of
`ksmbd_tree_conn_session_logoff` and the pass that follows, in program order, given the
state of the head of the list (`none` for an empty list): `list_empty` (line 152), the
read of the head (line 154), `write_lock` (line 157), `write_unlock` (line 159 or 164)
and, for a head that was not Disconnected, the call of `ksmbd_tree_conn_disconnect`. -/
def logoff_pass_lock_events (head : Option tree_state) : List lock_event :=
  match head with
  | none => [lock_event.list_read]
  | some st =>
    [lock_event.list_read, lock_event.list_read, lock_event.write_lock,
      lock_event.write_unlock] ++
    (if st = TREE_DISCONNECTED then [] else disconnect_lock_events)

/-! ## The status of a connect, stage by stage -/

/-- The status a connect has to return when the first stage that fails decides, in the
order of the stages: `-ENOENT` when the share name does not resolve, else `-ENOMEM` when
the allocation fails, else `-EINVAL` when the acquired id is negative, else `-EINVAL`
when the IPC channel gives no response, else the status of the response when it is not
`KSMBD_TREE_CONN_STATUS_OK`, else `-ESTALE` when the flags of the response contain
`KSMBD_TREE_CONN_FLAG_UPDATE` and resolving the name again fails, else
`KSMBD_TREE_CONN_STATUS_OK`. -/
def connect_status_by_stage (env : Collaborators) (w : World) (share_name : String) : Int :=
  match ksmbd_share_config_get w.shares env.share_reply share_name with
  | (_, none) => -ENOENT
  | (sh1, some sc) =>
    if env.zalloc = none then -ENOMEM
    else if env.acquire < 0 then -EINVAL
    else
      match env.ipc_resp with
      | none => -EINVAL
      | some resp =>
        if resp.status ≠ KSMBD_TREE_CONN_STATUS_OK then resp.status
        else if resp.connection_flags &&& KSMBD_TREE_CONN_FLAG_UPDATE ≠ 0 ∧
            (ksmbd_share_config_get (ksmbd_share_config_del sh1 sc) env.share_reply_again
              share_name).2 = none then -ESTALE
        else KSMBD_TREE_CONN_STATUS_OK

/-! ## Well-formedness and example data -/

/-- The ids of the tree connects of the session are pairwise distinct (the data model
invariant "the id is unique among all TreeConnects currently registered under the same
session"). -/
def distinct_ids (sess : ksmbd_session) : Prop :=
  (sess.tree_conn_list.map (fun e => e.2.id)).Nodup

/-- The tree connects of the session live at pairwise distinct addresses. -/
def distinct_addresses (sess : ksmbd_session) : Prop :=
  (sess.tree_conn_list.map (fun e => e.1)).Nodup

/-- Every handle in the share table was handed out before: it is below the next unused
handle. -/
def handles_below_next (tbl : share_table) : Prop :=
  ∀ e ∈ tbl.shares, e.2 < tbl.next

/-- The tree connects of the session are distinct objects with pairwise distinct ids, and
each of their ids is held in the id space of the session. -/
def session_inv (sess : ksmbd_session) : Prop :=
  distinct_addresses sess ∧ distinct_ids sess ∧
    ∀ e ∈ sess.tree_conn_list, e.2.id ∈ sess.tree_conn_ida

instance (sess : ksmbd_session) : Decidable (distinct_ids sess) := by
  unfold distinct_ids; infer_instance

instance (sess : ksmbd_session) : Decidable (distinct_addresses sess) := by
  unfold distinct_addresses; infer_instance

instance (tbl : share_table) : Decidable (handles_below_next tbl) := by
  unfold handles_below_next; infer_instance

/-- Example share table: `shareA` resolves to handle 1, which has one reference. -/
def ex_shares : share_table :=
  { shares := [("shareA", 1)], refcount := fun h => if h = 1 then 1 else 0, next := 2 }

/-- Example session without tree connects. -/
def ex_session : ksmbd_session :=
  { id := 7, user := some 100, tree_conn_ida := ∅, tree_conn_list := [] }

/-- Example state: `ex_shares` and `ex_session`. -/
def ex_world : World := { shares := ex_shares, sess := ex_session }

/-- Example collaborators that let a connect succeed: memory at address 4096, id 1, an
OK response without flags. -/
def ex_env_ok : Collaborators :=
  { share_reply := false, zalloc := some 4096, acquire := 1,
    ipc_resp := some { status := KSMBD_TREE_CONN_STATUS_OK, connection_flags := 0 },
    share_reply_again := false }

/-- Example collaborators whose OK response carries `KSMBD_TREE_CONN_FLAG_UPDATE`, with
user space supplying the refreshed configuration. -/
def ex_env_update : Collaborators :=
  { share_reply := false, zalloc := some 4096, acquire := 1,
    ipc_resp := some { status := KSMBD_TREE_CONN_STATUS_OK,
                       connection_flags := KSMBD_TREE_CONN_FLAG_UPDATE },
    share_reply_again := true }

/-- Example collaborators whose IPC channel denies the request with status 5. -/
def ex_env_denied : Collaborators :=
  { share_reply := false, zalloc := some 4096, acquire := 1,
    ipc_resp := some { status := 5, connection_flags := 0 },
    share_reply_again := false }

/-- Example tree connect: id 1, Connected, one reference. -/
def ex_tree : ksmbd_tree_connect :=
  { id := 1, flags := 0, share_conf := some 1, user := some 100,
    t_state := TREE_CONNECTED, refcount := 1, refcount_q := 0 }

/-- Example session holding `ex_tree` at address 4096. -/
def ex_session_one : ksmbd_session :=
  { id := 7, user := some 100, tree_conn_ida := {1}, tree_conn_list := [(4096, ex_tree)] }

/-- Example session holding a Disconnected tree connect with id 1 at address 4096. -/
def ex_session_disconnected : ksmbd_session :=
  { id := 7, user := some 100, tree_conn_ida := {1},
    tree_conn_list := [(4096, { ex_tree with t_state := TREE_DISCONNECTED })] }

/-- Example session holding two tree connects: one with id 2, in state `TREE_NEW`, at
address 8192, and `ex_tree` at address 4096. -/
def ex_session_two : ksmbd_session :=
  { id := 7, user := some 100, tree_conn_ida := {1, 2},
    tree_conn_list := [(8192, { ex_tree with id := 2, t_state := TREE_NEW }), (4096, ex_tree)] }

/-- Example share table in which handle 1 has two references. -/
def ex_shares_two : share_table :=
  { shares := [("shareA", 1)], refcount := fun h => if h = 1 then 2 else 0, next := 2 }

/-- Example state: `ex_session_two`, no request sent so far. -/
def ex_server_two : Server :=
  { w := { shares := ex_shares_two, sess := ex_session_two }, requests := [] }

/-- Example state: the head of the list is a tree connect in state `TREE_DISCONNECTED`
(id 1, address 4096), followed by a Connected one (id 2, address 8192); no request sent
so far. -/
def ex_server_disconnected_first : Server :=
  { w := { shares := ex_shares_two,
           sess := { id := 7, user := some 100, tree_conn_ida := {1, 2},
                     tree_conn_list :=
                       [(4096, { ex_tree with t_state := TREE_DISCONNECTED }),
                        (8192, { ex_tree with id := 2 })] } },
    requests := [] }

/-- Example replies of the IPC channel to disconnect requests: 0 to the first, -5 to
every later one. -/
def ex_reply : Nat → Int := fun k => if k = 0 then 0 else -5

/-- Example state: `ex_world`, no request sent so far. -/
def ex_server_empty : Server := { w := ex_world, requests := [] }

/-- Example sequence of calls: a connect (id 1 at address 4096), a lookup of id 1, a
second connect (id 2 at address 8192), a disconnect of the first tree connect. -/
def ex_ops : List session_op :=
  [session_op.connect ex_env_ok "shareA",
   session_op.lookup 1 none,
   session_op.connect { ex_env_ok with zalloc := some 8192, acquire := 2 } "shareA",
   session_op.disconnect 4096]

/-- The state `ex_ops` leads to from `ex_server_empty`. -/
def ex_reached : Server := (run_ops ex_reply ex_ops ex_server_empty).getD ex_server_empty

/-- Example start of an interleaving: `ex_tree` with its refcount of 1 and no holder. -/
def ex_race_start : race_state :=
  { tree := ex_tree, pc := not_entered, holders := 0, zeros := 0, frees := 0 }

/-- Example interleaving: a lookup, the decrement of the disconnect, a second lookup,
the puts of both holders, the end of the wait, the cleanup. -/
def ex_race_events : List race_event :=
  [race_event.lookup, race_event.disconnect, race_event.lookup, race_event.put,
   race_event.put, race_event.disconnect, race_event.disconnect]

/-- The state `ex_race_events` leads to from `ex_race_start`: the refcount is 0 and the
object was freed. -/
def ex_race_end : race_state :=
  { tree := { ex_tree with refcount := 0 }, pc := freed, holders := 0, zeros := 1,
    frees := 1 }

/-- Example start of an interleaving with one holder: `ex_tree` with refcount 2. -/
def ex_race_held : race_state :=
  { tree := { ex_tree with refcount := 2 }, pc := not_entered, holders := 1, zeros := 0,
    frees := 0 }

/-- The state after the decrement of the disconnect in `ex_race_held`: the
disconnecting task is in `wait_event`, the refcount is 1. -/
def ex_race_waiting : race_state :=
  { tree := { ex_tree with refcount := 1, refcount_q := 1 }, pc := waiting, holders := 1,
    zeros := 0, frees := 0 }

/-! ## Lemmas on the collaborators -/

/-- A resolve that returns a handle adds one reference to it and to no other. -/
theorem get_refcount (tbl : share_table) (d : Bool) (name : String) (tbl1 : share_table)
    (sc : Nat) (h : ksmbd_share_config_get tbl d name = (tbl1, some sc)) :
    tbl1.refcount = fun x => if x = sc then tbl.refcount x + 1 else tbl.refcount x := by
  unfold ksmbd_share_config_get at h
  split at h
  · cases h; rfl
  · split at h
    · cases h; rfl
    · cases h

/-- A resolve that fails leaves the share table as it is. -/
theorem get_none (tbl : share_table) (d : Bool) (name : String) (tbl1 : share_table)
    (h : ksmbd_share_config_get tbl d name = (tbl1, none)) : tbl1 = tbl := by
  unfold ksmbd_share_config_get at h
  split at h
  · cases h
  · split at h
    · cases h
    · cases h; rfl

/-- A release takes one reference from the handle and from no other. -/
theorem put_refcount (tbl : share_table) (sc : Nat) :
    (ksmbd_share_config_put tbl sc).refcount =
      fun x => if x = sc then tbl.refcount x - 1 else tbl.refcount x := by
  unfold ksmbd_share_config_put
  by_cases h : tbl.refcount sc - 1 = 0 <;> simp [h]

/-- Resolve followed by release of the handle restores every reference count. -/
theorem put_get_refcount (tbl tbl1 : share_table) (d : Bool) (name : String) (sc : Nat)
    (h : ksmbd_share_config_get tbl d name = (tbl1, some sc)) :
    (ksmbd_share_config_put tbl1 sc).refcount = tbl.refcount := by
  rw [put_refcount, get_refcount tbl d name tbl1 sc h]
  funext x
  by_cases hx : x = sc <;> simp [hx]

/-- Acquire followed by release of the answer restores the session, when the answer
was not held before. -/
theorem release_acquire (sess : ksmbd_session) (a : Int) (h : a ∉ sess.tree_conn_ida) :
    ksmbd_release_tree_conn_id (ksmbd_acquire_tree_conn_id sess a).1
      (ksmbd_acquire_tree_conn_id sess a).2 = sess := by
  unfold ksmbd_acquire_tree_conn_id ksmbd_release_tree_conn_id
  split
  · simp [Finset.erase_insert h]
  · simp [Finset.erase_eq_of_not_mem h]

/-- Resolve, `ksmbd_share_config_del` and release of the handle restore every reference
count. -/
theorem put_del_get_refcount (tbl tbl1 : share_table) (d : Bool) (name : String) (sc : Nat)
    (h : ksmbd_share_config_get tbl d name = (tbl1, some sc)) :
    (ksmbd_share_config_put (ksmbd_share_config_del tbl1 sc) sc).refcount = tbl.refcount := by
  rw [put_refcount]
  show (fun x => if x = sc then tbl1.refcount x - 1 else tbl1.refcount x) = tbl.refcount
  rw [get_refcount tbl d name tbl1 sc h]
  funext x
  by_cases hx : x = sc <;> simp [hx]

/-! ## Case analysis of a successful connect -/

/-- The session after a successful `ksmbd_acquire_tree_conn_id`. -/
theorem acquire_nonneg (sess : ksmbd_session) (a : Int) (h : 0 ≤ a) :
    ksmbd_acquire_tree_conn_id sess a =
      ({ sess with tree_conn_ida := insert a sess.tree_conn_ida }, a) := by
  unfold ksmbd_acquire_tree_conn_id
  rw [if_pos h]

/-- A connect that returns `KSMBD_TREE_CONN_STATUS_OK` passed every stage and ended in
`connect_finish`, with the share it resolved first, or, when the response carries
`KSMBD_TREE_CONN_FLAG_UPDATE`, with the share it resolved again. -/
theorem connect_ok_inv (env : Collaborators) (w : World) (share_name : String)
    (hok : (ksmbd_tree_conn_connect env w share_name).2.ret = KSMBD_TREE_CONN_STATUS_OK) :
    ∃ sh1 sc p resp,
      ksmbd_share_config_get w.shares env.share_reply share_name = (sh1, some sc) ∧
      env.zalloc = some p ∧ 0 ≤ env.acquire ∧ env.ipc_resp = some resp ∧
      resp.status = KSMBD_TREE_CONN_STATUS_OK ∧
      ((test_tree_conn_flag
            { zeroed_tree_connect with id := env.acquire, flags := resp.connection_flags }
            KSMBD_TREE_CONN_FLAG_UPDATE = false ∧
          ksmbd_tree_conn_connect env w share_name =
            connect_finish sh1 { w.sess with tree_conn_ida := insert env.acquire w.sess.tree_conn_ida }
              p { zeroed_tree_connect with id := env.acquire, flags := resp.connection_flags }
              sc KSMBD_TREE_CONN_STATUS_OK) ∨
        (test_tree_conn_flag
            { zeroed_tree_connect with id := env.acquire, flags := resp.connection_flags }
            KSMBD_TREE_CONN_FLAG_UPDATE = true ∧
          ∃ sh3 new_sc,
            ksmbd_share_config_get (ksmbd_share_config_del sh1 sc) env.share_reply_again
              share_name = (sh3, some new_sc) ∧
            ksmbd_tree_conn_connect env w share_name =
              connect_finish (ksmbd_share_config_put sh3 sc)
                { w.sess with tree_conn_ida := insert env.acquire w.sess.tree_conn_ida }
                p { zeroed_tree_connect with id := env.acquire, flags := resp.connection_flags }
                new_sc KSMBD_TREE_CONN_STATUS_OK)) := by
  unfold ksmbd_tree_conn_connect at hok ⊢
  split at hok
  · exact absurd hok (by simp [ENOENT, KSMBD_TREE_CONN_STATUS_OK])
  · rename_i sh1 sc hg
    rw [hg]
    split at hok
    · exact absurd hok (by simp [out_error, ENOMEM, KSMBD_TREE_CONN_STATUS_OK])
    · rename_i p hz
      rw [hz]
      dsimp only at hok ⊢
      split at hok
      · exact absurd hok (by simp [out_error, EINVAL, KSMBD_TREE_CONN_STATUS_OK])
      · rename_i hid
        have hacq : 0 ≤ env.acquire := by
          by_contra hneg
          apply hid
          unfold ksmbd_acquire_tree_conn_id
          rw [if_neg hneg]
          exact not_le.mp hneg
        rw [acquire_nonneg _ _ hacq] at hok ⊢
        dsimp only at hok ⊢
        rw [if_neg (not_lt.mpr hacq)]
        split at hok
        · exact absurd hok (by simp [out_error, EINVAL, KSMBD_TREE_CONN_STATUS_OK])
        · rename_i resp hr
          rw [hr]
          split at hok
          · rename_i hst
            exact absurd hok (by simpa [out_error] using hst)
          · rename_i hst
            have hst2 : resp.status = KSMBD_TREE_CONN_STATUS_OK := not_not.mp hst
            rw [if_neg hst]
            refine ⟨sh1, sc, p, resp, rfl, rfl, hacq, rfl, hst2, ?_⟩
            split at hok
            · rename_i hflag
              rw [if_pos hflag]
              right
              refine ⟨hflag, ?_⟩
              split at hok
              · exact absurd hok (by simp [out_error, ESTALE, KSMBD_TREE_CONN_STATUS_OK])
              · rename_i sh3 new_sc hg2
                refine ⟨sh3, new_sc, hg2, ?_⟩
                rw [hst2]
            · rename_i hflag
              rw [if_neg hflag]
              left
              refine ⟨by simpa using hflag, ?_⟩
              rw [hst2]

/-! ## Lemmas on the session list -/

/-- The session list after `connect_finish`. -/
theorem connect_finish_fst_list (shares : share_table) (sess : ksmbd_session) (p : Nat)
    (tc : ksmbd_tree_connect) (sc : Nat) (ret : Int) :
    (connect_finish shares sess p tc sc ret).1.sess.tree_conn_list =
      (p, { tc with user := sess.user, share_conf := some sc, t_state := TREE_NEW,
                    refcount := 1, refcount_q := 0 }) :: sess.tree_conn_list := rfl

/-- A successful connect returns the address of the object it put at the head of the
list, and the fields of that object. -/
theorem connect_ok_head (env : Collaborators) (w : World) (share_name : String)
    (hok : (ksmbd_tree_conn_connect env w share_name).2.ret = KSMBD_TREE_CONN_STATUS_OK) :
    ∃ p resp c,
      env.zalloc = some p ∧ env.ipc_resp = some resp ∧ 0 ≤ env.acquire ∧
      (ksmbd_tree_conn_connect env w share_name).2.tree_conn = some p ∧
      (ksmbd_tree_conn_connect env w share_name).1.sess =
        { w.sess with
          tree_conn_ida := insert env.acquire w.sess.tree_conn_ida
          tree_conn_list :=
            (p, { id := env.acquire, flags := resp.connection_flags, share_conf := some c,
                  user := w.sess.user, t_state := TREE_NEW, refcount := 1,
                  refcount_q := 0 }) :: w.sess.tree_conn_list } := by
  obtain ⟨sh1, sc, p, resp, _, hz, hacq, hr, _, h⟩ := connect_ok_inv env w share_name hok
  rcases h with ⟨_, h⟩ | ⟨_, sh3, new_sc, _, h⟩
  · exact ⟨p, resp, sc, hz, hr, hacq, by rw [h]; rfl, by rw [h]; rfl⟩
  · exact ⟨p, resp, new_sc, hz, hr, hacq, by rw [h]; rfl, by rw [h]; rfl⟩

/-- The result of a lookup whose scan stops at the entry `e`. -/
theorem lookup_found (sess : ksmbd_session) (id : Nat) (tcon_uninit : Option Nat)
    (e : Nat × ksmbd_tree_connect)
    (h : sess.tree_conn_list.find? (fun e => e.2.id = (id : Int)) = some e) :
    ksmbd_tree_conn_lookup sess id tcon_uninit =
      if e.2.t_state ≠ TREE_CONNECTED then some (sess, none)
      else if e.2.refcount = 0 then some (sess, none)
      else some (store_tree sess e.1 { e.2 with refcount := e.2.refcount + 1 }, some e.1) := by
  unfold ksmbd_tree_conn_lookup
  rw [h]
  dsimp only
  by_cases hs : e.2.t_state = TREE_CONNECTED
  · by_cases hr : e.2.refcount = 0
    · simp [hs, hr, atomic_inc_not_zero]
    · simp [hs, hr, atomic_inc_not_zero]
  · simp [hs]

/-- A second store to the same address overwrites the first. -/
theorem store_store (sess : ksmbd_session) (p : Nat) (a b : ksmbd_tree_connect) :
    store_tree (store_tree sess p a) p b = store_tree sess p b := by
  unfold store_tree
  simp only [List.map_map]
  congr 1
  apply List.map_congr_left
  intro e _
  by_cases h : e.1 = p <;> simp [h]

/-! ## Claims on `ksmbd_tree_conn_connect` -/

/-- C1: when `ksmbd_tree_conn_connect` returns a status other than
`KSMBD_TREE_CONN_STATUS_OK`, whatever the stage that failed and whatever the
collaborators answered (the id allocator answering with an id that is not currently
held), the set of held tree ids, the reference count of every share configuration and
the tree connect list of the session are what they were before the call, and the
returned `tree_conn` is `NULL`. -/
theorem connect_failure_restores (env : Collaborators) (w : World) (share_name : String)
    (hfresh : env.acquire ∉ w.sess.tree_conn_ida)
    (hfail : (ksmbd_tree_conn_connect env w share_name).2.ret ≠ KSMBD_TREE_CONN_STATUS_OK) :
    (ksmbd_tree_conn_connect env w share_name).1.sess.tree_conn_ida = w.sess.tree_conn_ida ∧
    (ksmbd_tree_conn_connect env w share_name).1.shares.refcount = w.shares.refcount ∧
    (ksmbd_tree_conn_connect env w share_name).1.sess.tree_conn_list = w.sess.tree_conn_list ∧
    (ksmbd_tree_conn_connect env w share_name).2.tree_conn = none ∧
    (ksmbd_tree_conn_connect env w share_name).1.sess = w.sess := by
  have hrel := release_acquire w.sess env.acquire hfresh
  unfold ksmbd_tree_conn_connect at hfail ⊢
  split
  · rename_i sh0 hg
    have := get_none _ _ _ _ hg
    simp [this]
  · rename_i sh1 sc hg
    have hpg := put_get_refcount _ _ _ _ _ hg
    have hpdg := put_del_get_refcount _ _ _ _ _ hg
    rw [hg] at hfail
    split
    · simp [out_error, hpg]
    · rename_i p hz
      rw [hz] at hfail
      dsimp only at hfail ⊢
      split
      · simp [out_error, hpg, hrel]
      · rename_i hid
        rw [if_neg hid] at hfail
        split
        · simp [out_error, hpg, hrel]
        · rename_i resp hr
          rw [hr] at hfail
          dsimp only at hfail
          split
          · simp [out_error, hpg, hrel]
          · rename_i hst
            rw [if_neg hst] at hfail
            split
            · rename_i hflag
              rw [if_pos hflag] at hfail
              split
              · rename_i sh3 hg2
                have h3 := get_none _ _ _ _ hg2
                subst h3
                simp [out_error, hrel, hpdg]
              · rename_i sh3 new_sc hg2
                rw [hg2] at hfail
                exact absurd (not_not.mp hst) hfail
            · rename_i hflag
              rw [if_neg hflag] at hfail
              exact absurd (not_not.mp hst) hfail

/-- C1, at a concrete input: the IPC channel denies the request with status 5. -/
theorem connect_failure_restores_witness :
    (ksmbd_tree_conn_connect ex_env_denied ex_world "shareA").2.ret = 5 ∧
    (ksmbd_tree_conn_connect ex_env_denied ex_world "shareA").1.sess.tree_conn_ida =
      ex_world.sess.tree_conn_ida ∧
    (ksmbd_tree_conn_connect ex_env_denied ex_world "shareA").1.shares.refcount =
      ex_world.shares.refcount ∧
    (ksmbd_tree_conn_connect ex_env_denied ex_world "shareA").1.sess.tree_conn_list =
      ex_world.sess.tree_conn_list ∧
    (ksmbd_tree_conn_connect ex_env_denied ex_world "shareA").2.tree_conn = none ∧
    (ksmbd_tree_conn_connect ex_env_denied ex_world "shareA").1.sess = ex_world.sess :=
  ⟨by decide,
    connect_failure_restores ex_env_denied ex_world "shareA" (by decide) (by decide)⟩

/-- C2 (counterexample): a connect succeeds and returns the tree connect with id 1 at
address 4096; the lookup of id 1 that follows returns `NULL` and leaves the session,
and so the refcount of 1, as it is.  This holds whether the uninitialised `tcon` is
`NULL` or the address of that tree connect. -/
theorem connect_then_lookup_returns_null :
    (ksmbd_tree_conn_connect ex_env_ok ex_world "shareA").2 =
      { ret := KSMBD_TREE_CONN_STATUS_OK, tree_conn := some 4096 } ∧
    tree_at (ksmbd_tree_conn_connect ex_env_ok ex_world "shareA").1.sess 4096 =
      some { id := 1, flags := 0, share_conf := some 1, user := some 100,
             t_state := TREE_NEW, refcount := 1, refcount_q := 0 } ∧
    ksmbd_tree_conn_lookup (ksmbd_tree_conn_connect ex_env_ok ex_world "shareA").1.sess 1 none =
      some ((ksmbd_tree_conn_connect ex_env_ok ex_world "shareA").1.sess, none) ∧
    ksmbd_tree_conn_lookup (ksmbd_tree_conn_connect ex_env_ok ex_world "shareA").1.sess 1
        (some 4096) =
      some ((ksmbd_tree_conn_connect ex_env_ok ex_world "shareA").1.sess, none) := by
  decide

/-- C2 (as amended): after a successful connect that returns the tree connect `t` at
address `p`, with refcount 1, the lookup of its id returns `NULL` and changes nothing;
once `t_state` of that tree connect has been set to `TREE_CONNECTED`, the lookup of its
id returns `p` and the refcount is 2. -/
theorem connect_then_lookup (env : Collaborators) (w : World) (share_name : String)
    (tcon_uninit : Option Nat)
    (hok : (ksmbd_tree_conn_connect env w share_name).2.ret = KSMBD_TREE_CONN_STATUS_OK) :
    ∃ p t,
      (ksmbd_tree_conn_connect env w share_name).2.tree_conn = some p ∧
      (ksmbd_tree_conn_connect env w share_name).1.sess.tree_conn_list =
        (p, t) :: w.sess.tree_conn_list ∧
      0 ≤ t.id ∧ t.refcount = 1 ∧
      ksmbd_tree_conn_lookup (ksmbd_tree_conn_connect env w share_name).1.sess t.id.toNat
          tcon_uninit =
        some ((ksmbd_tree_conn_connect env w share_name).1.sess, none) ∧
      ksmbd_tree_conn_lookup
          (store_tree (ksmbd_tree_conn_connect env w share_name).1.sess p
            { t with t_state := TREE_CONNECTED })
          t.id.toNat tcon_uninit =
        some (store_tree (ksmbd_tree_conn_connect env w share_name).1.sess p
                { t with t_state := TREE_CONNECTED, refcount := 2 }, some p) := by
  obtain ⟨p, resp, c, _, _, hacq, hptr, hsess⟩ := connect_ok_head env w share_name hok
  have hid : ((env.acquire.toNat : Nat) : Int) = env.acquire := Int.toNat_of_nonneg hacq
  refine ⟨p, { id := env.acquire, flags := resp.connection_flags, share_conf := some c,
               user := w.sess.user, t_state := TREE_NEW, refcount := 1, refcount_q := 0 },
    hptr, by rw [hsess], hacq, rfl, ?_, ?_⟩
  · rw [lookup_found _ _ _
      (p, { id := env.acquire, flags := resp.connection_flags, share_conf := some c,
            user := w.sess.user, t_state := TREE_NEW, refcount := 1, refcount_q := 0 })
      (by rw [hsess]; simp [hid])]
    simp
  · rw [lookup_found _ _ _
      (p, { id := env.acquire, flags := resp.connection_flags, share_conf := some c,
            user := w.sess.user, t_state := TREE_CONNECTED, refcount := 1, refcount_q := 0 })
      (by rw [hsess]; simp [store_tree, hid])]
    simp [store_store]

/-- C2 (as amended), at a concrete input. -/
theorem connect_then_lookup_witness :
    ∃ p t,
      (ksmbd_tree_conn_connect ex_env_ok ex_world "shareA").2.tree_conn = some p ∧
      (ksmbd_tree_conn_connect ex_env_ok ex_world "shareA").1.sess.tree_conn_list =
        (p, t) :: ex_world.sess.tree_conn_list ∧
      0 ≤ t.id ∧ t.refcount = 1 ∧
      ksmbd_tree_conn_lookup (ksmbd_tree_conn_connect ex_env_ok ex_world "shareA").1.sess
          t.id.toNat none =
        some ((ksmbd_tree_conn_connect ex_env_ok ex_world "shareA").1.sess, none) ∧
      ksmbd_tree_conn_lookup
          (store_tree (ksmbd_tree_conn_connect ex_env_ok ex_world "shareA").1.sess p
            { t with t_state := TREE_CONNECTED })
          t.id.toNat none =
        some (store_tree (ksmbd_tree_conn_connect ex_env_ok ex_world "shareA").1.sess p
                { t with t_state := TREE_CONNECTED, refcount := 2 }, some p) :=
  connect_then_lookup ex_env_ok ex_world "shareA" none (by decide)

/-- C3 (counterexample): a connect returns `KSMBD_TREE_CONN_STATUS_OK`, and the tree
connect it linked into the session list is in state `TREE_NEW`, not `TREE_CONNECTED`. -/
theorem connect_links_tree_new_example :
    (ksmbd_tree_conn_connect ex_env_ok ex_world "shareA").2.ret = KSMBD_TREE_CONN_STATUS_OK ∧
    (ksmbd_tree_conn_connect ex_env_ok ex_world "shareA").2.tree_conn = some 4096 ∧
    (ksmbd_tree_conn_connect ex_env_ok ex_world "shareA").1.sess.tree_conn_list =
      [(4096, { id := 1, flags := 0, share_conf := some 1, user := some 100,
                t_state := TREE_NEW, refcount := 1, refcount_q := 0 })] ∧
    (tree_at (ksmbd_tree_conn_connect ex_env_ok ex_world "shareA").1.sess 4096).map
        (fun t => t.t_state) ≠ some TREE_CONNECTED := by
  decide

/-- C3 (as amended): whenever `ksmbd_tree_conn_connect` returns
`KSMBD_TREE_CONN_STATUS_OK`, the tree connect it returns is at the head of the session
list and its state is `TREE_NEW`. -/
theorem connect_links_tree_new (env : Collaborators) (w : World) (share_name : String)
    (hok : (ksmbd_tree_conn_connect env w share_name).2.ret = KSMBD_TREE_CONN_STATUS_OK) :
    ∃ p t,
      (ksmbd_tree_conn_connect env w share_name).2.tree_conn = some p ∧
      (ksmbd_tree_conn_connect env w share_name).1.sess.tree_conn_list =
        (p, t) :: w.sess.tree_conn_list ∧
      t.t_state = TREE_NEW := by
  obtain ⟨p, resp, c, _, _, _, hptr, hsess⟩ := connect_ok_head env w share_name hok
  exact ⟨p, _, hptr, by rw [hsess], rfl⟩

/-- C3 (as amended), at a concrete input. -/
theorem connect_links_tree_new_witness :
    ∃ p t,
      (ksmbd_tree_conn_connect ex_env_update ex_world "shareA").2.tree_conn = some p ∧
      (ksmbd_tree_conn_connect ex_env_update ex_world "shareA").1.sess.tree_conn_list =
        (p, t) :: ex_world.sess.tree_conn_list ∧
      t.t_state = TREE_NEW :=
  connect_links_tree_new ex_env_update ex_world "shareA" (by decide)

/-- C4: whenever `ksmbd_tree_conn_connect` returns `KSMBD_TREE_CONN_STATUS_OK`, the
returned pointer is not `NULL`; the object it points to is in the session list, has
refcount 1, the user of the session, the `connection_flags` of the IPC response, the id
the id allocator answered with (now held in the id space of the session) and a
`share_conf` that is not `NULL`; the entries that were in the list before the call
follow it unchanged, in their order. -/
theorem connect_success_fields (env : Collaborators) (w : World) (share_name : String)
    (hok : (ksmbd_tree_conn_connect env w share_name).2.ret = KSMBD_TREE_CONN_STATUS_OK) :
    ∃ p t resp,
      (ksmbd_tree_conn_connect env w share_name).2.tree_conn = some p ∧
      (ksmbd_tree_conn_connect env w share_name).1.sess.tree_conn_list =
        (p, t) :: w.sess.tree_conn_list ∧
      (p, t) ∈ (ksmbd_tree_conn_connect env w share_name).1.sess.tree_conn_list ∧
      (∀ e ∈ w.sess.tree_conn_list,
        e ∈ (ksmbd_tree_conn_connect env w share_name).1.sess.tree_conn_list) ∧
      t.refcount = 1 ∧
      t.user = w.sess.user ∧
      (ksmbd_tree_conn_connect env w share_name).1.sess.user = w.sess.user ∧
      env.ipc_resp = some resp ∧ t.flags = resp.connection_flags ∧
      t.id = env.acquire ∧ 0 ≤ t.id ∧
      t.id ∈ (ksmbd_tree_conn_connect env w share_name).1.sess.tree_conn_ida ∧
      t.share_conf ≠ none := by
  obtain ⟨p, resp, c, _, hr, hacq, hptr, hsess⟩ := connect_ok_head env w share_name hok
  refine ⟨p, { id := env.acquire, flags := resp.connection_flags, share_conf := some c,
               user := w.sess.user, t_state := TREE_NEW, refcount := 1, refcount_q := 0 },
    resp, hptr, by rw [hsess], by rw [hsess]; simp, ?_, rfl, rfl, by rw [hsess], hr, rfl, rfl,
    hacq, by rw [hsess]; simp, by simp⟩
  intro e he
  rw [hsess]
  exact List.mem_cons_of_mem _ he

/-- C4, at a concrete input: a second tree connect on a session that already holds
one. -/
theorem connect_success_fields_witness :
    ∃ p t resp,
      (ksmbd_tree_conn_connect { ex_env_ok with zalloc := some 8192, acquire := 2 }
        { shares := ex_shares, sess := ex_session_one } "shareA").2.tree_conn = some p ∧
      (ksmbd_tree_conn_connect { ex_env_ok with zalloc := some 8192, acquire := 2 }
        { shares := ex_shares, sess := ex_session_one } "shareA").1.sess.tree_conn_list =
        (p, t) :: ex_session_one.tree_conn_list ∧
      (p, t) ∈ (ksmbd_tree_conn_connect { ex_env_ok with zalloc := some 8192, acquire := 2 }
        { shares := ex_shares, sess := ex_session_one } "shareA").1.sess.tree_conn_list ∧
      (∀ e ∈ ex_session_one.tree_conn_list,
        e ∈ (ksmbd_tree_conn_connect { ex_env_ok with zalloc := some 8192, acquire := 2 }
          { shares := ex_shares, sess := ex_session_one } "shareA").1.sess.tree_conn_list) ∧
      t.refcount = 1 ∧
      t.user = ex_session_one.user ∧
      (ksmbd_tree_conn_connect { ex_env_ok with zalloc := some 8192, acquire := 2 }
        { shares := ex_shares, sess := ex_session_one } "shareA").1.sess.user =
        ex_session_one.user ∧
      ex_env_ok.ipc_resp = some resp ∧ t.flags = resp.connection_flags ∧
      t.id = 2 ∧ 0 ≤ t.id ∧
      t.id ∈ (ksmbd_tree_conn_connect { ex_env_ok with zalloc := some 8192, acquire := 2 }
        { shares := ex_shares, sess := ex_session_one } "shareA").1.sess.tree_conn_ida ∧
      t.share_conf ≠ none :=
  connect_success_fields { ex_env_ok with zalloc := some 8192, acquire := 2 }
    { shares := ex_shares, sess := ex_session_one } "shareA" (by decide)

/-- The id `ksmbd_acquire_tree_conn_id` returns is the answer of the allocator. -/
theorem acquire_snd (sess : ksmbd_session) (a : Int) :
    (ksmbd_acquire_tree_conn_id sess a).2 = a := by
  unfold ksmbd_acquire_tree_conn_id
  split <;> rfl

/-- C5: the status `ksmbd_tree_conn_connect` returns is the one of the first stage that
fails, in the order share name, allocation, id, IPC response, status of the response,
refresh of a stale share; it is `KSMBD_TREE_CONN_STATUS_OK` exactly when every stage
passes. -/
theorem connect_status_first_failure (env : Collaborators) (w : World) (share_name : String) :
    (ksmbd_tree_conn_connect env w share_name).2.ret =
      connect_status_by_stage env w share_name ∧
    ((ksmbd_tree_conn_connect env w share_name).2.ret = KSMBD_TREE_CONN_STATUS_OK ↔
      ∃ sh1 sc resp,
        ksmbd_share_config_get w.shares env.share_reply share_name = (sh1, some sc) ∧
        env.zalloc ≠ none ∧ 0 ≤ env.acquire ∧ env.ipc_resp = some resp ∧
        resp.status = KSMBD_TREE_CONN_STATUS_OK ∧
        (resp.connection_flags &&& KSMBD_TREE_CONN_FLAG_UPDATE ≠ 0 →
          (ksmbd_share_config_get (ksmbd_share_config_del sh1 sc) env.share_reply_again
            share_name).2 ≠ none)) := by
  have hstage : (ksmbd_tree_conn_connect env w share_name).2.ret =
      connect_status_by_stage env w share_name := by
    unfold ksmbd_tree_conn_connect connect_status_by_stage
    rcases hg : ksmbd_share_config_get w.shares env.share_reply share_name with ⟨sh, _ | sc⟩
    · rfl
    · rcases hz : env.zalloc with _ | p
      · simp [out_error]
      · simp only [acquire_snd]
        by_cases hid : env.acquire < 0
        · simp [hid, out_error]
        · rcases hr : env.ipc_resp with _ | resp
          · simp [hid, out_error]
          · by_cases hst : resp.status = KSMBD_TREE_CONN_STATUS_OK
            · by_cases hfl : resp.connection_flags &&& KSMBD_TREE_CONN_FLAG_UPDATE = 0
              · simp [hid, hst, hfl, test_tree_conn_flag, connect_finish]
              · rcases hg2 : ksmbd_share_config_get (ksmbd_share_config_del sh sc)
                    env.share_reply_again share_name with ⟨sh3, _ | c⟩
                · simp [hid, hst, hfl, hg2, test_tree_conn_flag, out_error]
                · simp [hid, hst, hfl, hg2, test_tree_conn_flag, connect_finish]
            · simp [hid, hst, out_error]
  refine ⟨hstage, ?_⟩
  rw [hstage]
  unfold connect_status_by_stage
  rcases hg : ksmbd_share_config_get w.shares env.share_reply share_name with ⟨sh, _ | sc⟩
  · simp [ENOENT, KSMBD_TREE_CONN_STATUS_OK]
  · rcases hz : env.zalloc with _ | p
    · simp [ENOMEM, KSMBD_TREE_CONN_STATUS_OK]
    · by_cases hid : env.acquire < 0
      · simp [hid, EINVAL, KSMBD_TREE_CONN_STATUS_OK]
      · rcases hr : env.ipc_resp with _ | resp
        · simp [hid, EINVAL, KSMBD_TREE_CONN_STATUS_OK]
        · by_cases hst : resp.status = KSMBD_TREE_CONN_STATUS_OK
          · by_cases hfl : resp.connection_flags &&& KSMBD_TREE_CONN_FLAG_UPDATE = 0
            · simp [hid, hst, hfl, not_lt.mp hid]
            · rcases hg2 : ksmbd_share_config_get (ksmbd_share_config_del sh sc)
                  env.share_reply_again share_name with ⟨sh3, _ | c⟩
              · simp [hid, hst, hfl, hg2, ESTALE, KSMBD_TREE_CONN_STATUS_OK]
              · constructor
                · intro _
                  exact ⟨sh, sc, resp, rfl, by simp, not_lt.mp hid, rfl, hst,
                    fun _ => by rw [hg2]; simp⟩
                · intro _
                  simp [hid, hst, hfl, hg2]
          · simp [hid, hst]

/-- A resolve returns a handle of the table, or the next unused handle, which it adds
to the table. -/
theorem get_some_cases (tbl tbl1 : share_table) (d : Bool) (name : String) (c : Nat)
    (h : ksmbd_share_config_get tbl d name = (tbl1, some c)) :
    ((∃ e ∈ tbl.shares, e.2 = c) ∧ tbl1.next = tbl.next ∧ tbl1.shares = tbl.shares) ∨
    (c = tbl.next ∧ tbl1.next = tbl.next + 1 ∧ tbl1.shares = (name, tbl.next) :: tbl.shares) := by
  unfold ksmbd_share_config_get at h
  split at h
  · rename_i e he
    cases h
    exact Or.inl ⟨⟨e, List.mem_of_find?_eq_some he, rfl⟩, rfl, rfl⟩
  · split at h
    · cases h
      exact Or.inr ⟨rfl, rfl, rfl⟩
    · cases h

/-- After `ksmbd_share_config_del` of a resolved handle, a second resolve returns another
handle. -/
theorem get_del_get_ne (tbl sh1 sh3 : share_table) (d d2 : Bool) (name name2 : String)
    (sc c : Nat) (hwf : handles_below_next tbl)
    (h1 : ksmbd_share_config_get tbl d name = (sh1, some sc))
    (h2 : ksmbd_share_config_get (ksmbd_share_config_del sh1 sc) d2 name2 = (sh3, some c)) :
    c ≠ sc := by
  have hlt : sc < sh1.next := by
    rcases get_some_cases _ _ _ _ _ h1 with ⟨⟨e, he, hec⟩, hn, _⟩ | ⟨hc, hn, _⟩
    · rw [hn, ← hec]; exact hwf e he
    · rw [hn, hc]; exact Nat.lt_succ_self _
  rcases get_some_cases _ _ _ _ _ h2 with ⟨⟨e, he, hec⟩, _, _⟩ | ⟨hc, _, _⟩
  · have hmem : e ∈ sh1.shares.filter (fun e => e.2 ≠ sc) := he
    have := (List.mem_filter.mp hmem).2
    rw [← hec]
    simpa using this
  · have hn : (ksmbd_share_config_del sh1 sc).next = sh1.next := rfl
    rw [hc, hn]
    exact Nat.ne_of_gt hlt

/-- C6: after a successful connect the reference count of the share configuration the
returned tree connect points to is one higher than before the call, and every other
reference count is what it was.  When the response does not carry
`KSMBD_TREE_CONN_FLAG_UPDATE` that configuration is the one the name resolved to.  When
it does, that configuration is the one the name resolved to the second time; it is not
the stale one, whose reference count is what it was before the call. -/
theorem connect_share_references (env : Collaborators) (w : World) (share_name : String)
    (hwf : handles_below_next w.shares)
    (hok : (ksmbd_tree_conn_connect env w share_name).2.ret = KSMBD_TREE_CONN_STATUS_OK) :
    ∃ p t c sh1 sc resp,
      ksmbd_share_config_get w.shares env.share_reply share_name = (sh1, some sc) ∧
      env.ipc_resp = some resp ∧
      (ksmbd_tree_conn_connect env w share_name).2.tree_conn = some p ∧
      (ksmbd_tree_conn_connect env w share_name).1.sess.tree_conn_list =
        (p, t) :: w.sess.tree_conn_list ∧
      t.share_conf = some c ∧
      (∀ h, (ksmbd_tree_conn_connect env w share_name).1.shares.refcount h =
        w.shares.refcount h + if h = c then 1 else 0) ∧
      (resp.connection_flags &&& KSMBD_TREE_CONN_FLAG_UPDATE = 0 → c = sc) ∧
      (resp.connection_flags &&& KSMBD_TREE_CONN_FLAG_UPDATE ≠ 0 →
        (ksmbd_share_config_get (ksmbd_share_config_del sh1 sc) env.share_reply_again
          share_name).2 = some c ∧
        c ≠ sc ∧
        (ksmbd_tree_conn_connect env w share_name).1.shares.refcount sc =
          w.shares.refcount sc) := by
  obtain ⟨sh1, sc, p, resp, hg, _, _, hr, _, h⟩ := connect_ok_inv env w share_name hok
  have hrc1 := get_refcount _ _ _ _ _ hg
  rcases h with ⟨hflag, h⟩ | ⟨hflag, sh3, new_sc, hg2, h⟩
  · have hz : resp.connection_flags &&& KSMBD_TREE_CONN_FLAG_UPDATE = 0 := by
      simpa [test_tree_conn_flag] using hflag
    refine ⟨p, _, sc, sh1, sc, resp, hg, hr, by rw [h]; rfl, by rw [h]; rfl, rfl, ?_,
      fun _ => rfl, fun hne => absurd hz hne⟩
    intro x
    rw [h]
    show sh1.refcount x = _
    rw [hrc1]
    by_cases hx : x = sc <;> simp [hx]
  · have hnz : resp.connection_flags &&& KSMBD_TREE_CONN_FLAG_UPDATE ≠ 0 := by
      simpa [test_tree_conn_flag] using hflag
    have hne : new_sc ≠ sc := get_del_get_ne _ _ _ _ _ _ _ _ _ hwf hg hg2
    have hrc3 := get_refcount _ _ _ _ _ hg2
    have hdel : (ksmbd_share_config_del sh1 sc).refcount = sh1.refcount := rfl
    have hall : ∀ x, (ksmbd_tree_conn_connect env w share_name).1.shares.refcount x =
        w.shares.refcount x + if x = new_sc then 1 else 0 := by
      intro x
      rw [h]
      show (ksmbd_share_config_put sh3 sc).refcount x = _
      rw [put_refcount, hrc3, hdel, hrc1]
      by_cases hx : x = sc
      · subst hx
        simp [Ne.symm hne]
      · by_cases hx2 : x = new_sc
        · subst hx2
          simp [hne]
        · simp [hx, hx2]
    refine ⟨p, _, new_sc, sh1, sc, resp, hg, hr, by rw [h]; rfl, by rw [h]; rfl, rfl, hall,
      fun hz => absurd hz hnz, fun _ => ⟨by rw [hg2], hne, ?_⟩⟩
    rw [hall sc]
    simp [Ne.symm hne]

/-- C6, at a concrete input: the response carries `KSMBD_TREE_CONN_FLAG_UPDATE`, the
stale configuration is handle 1 and the refreshed one is handle 2. -/
theorem connect_share_references_witness :
    ∃ p t c sh1 sc resp,
      ksmbd_share_config_get ex_world.shares ex_env_update.share_reply "shareA" =
        (sh1, some sc) ∧
      ex_env_update.ipc_resp = some resp ∧
      (ksmbd_tree_conn_connect ex_env_update ex_world "shareA").2.tree_conn = some p ∧
      (ksmbd_tree_conn_connect ex_env_update ex_world "shareA").1.sess.tree_conn_list =
        (p, t) :: ex_world.sess.tree_conn_list ∧
      t.share_conf = some c ∧
      (∀ h, (ksmbd_tree_conn_connect ex_env_update ex_world "shareA").1.shares.refcount h =
        ex_world.shares.refcount h + if h = c then 1 else 0) ∧
      (resp.connection_flags &&& KSMBD_TREE_CONN_FLAG_UPDATE = 0 → c = sc) ∧
      (resp.connection_flags &&& KSMBD_TREE_CONN_FLAG_UPDATE ≠ 0 →
        (ksmbd_share_config_get (ksmbd_share_config_del sh1 sc)
          ex_env_update.share_reply_again "shareA").2 = some c ∧
        c ≠ sc ∧
        (ksmbd_tree_conn_connect ex_env_update ex_world "shareA").1.shares.refcount sc =
          ex_world.shares.refcount sc) :=
  connect_share_references ex_env_update ex_world "shareA" (by decide) (by decide)

/-! ## Lemmas on lookup and on stores into the session list -/

/-- In a list without two elements of the same key, the search for the key of a member
finds that member. -/
theorem find_of_nodup_map {α β : Type} [DecidableEq β] (f : α → β) (l : List α) (e : α)
    (hnd : (l.map f).Nodup) (hmem : e ∈ l) :
    l.find? (fun x => decide (f x = f e)) = some e := by
  induction l with
  | nil => cases hmem
  | cons a l ih =>
    rw [List.map_cons, List.nodup_cons] at hnd
    by_cases ha : f a = f e
    · rcases List.mem_cons.mp hmem with h | h
      · subst h
        simp
      · exact absurd (ha ▸ List.mem_map_of_mem f h) hnd.1
    · have hne : e ≠ a := fun h => ha (h ▸ rfl)
      have hin : e ∈ l := (List.mem_cons.mp hmem).resolve_left hne
      rw [List.find?_cons_of_neg _ (by simpa using ha)]
      exact ih hnd.2 hin

/-- With pairwise distinct ids, the scan for the id of a tree connect of the session
stops at it. -/
theorem find_id_of_mem (sess : ksmbd_session) (i : Nat) (p : Nat) (t : ksmbd_tree_connect)
    (hids : distinct_ids sess) (hmem : (p, t) ∈ sess.tree_conn_list) (hid : t.id = (i : Int)) :
    sess.tree_conn_list.find? (fun e => e.2.id = (i : Int)) = some (p, t) := by
  have := find_of_nodup_map (fun e : Nat × ksmbd_tree_connect => e.2.id) _ (p, t) hids hmem
  simpa [hid] using this

/-- With pairwise distinct addresses, the object at the address of an entry is that
entry. -/
theorem tree_at_of_mem (sess : ksmbd_session) (p : Nat) (t : ksmbd_tree_connect)
    (haddr : distinct_addresses sess) (hmem : (p, t) ∈ sess.tree_conn_list) :
    tree_at sess p = some t := by
  have := find_of_nodup_map (fun e : Nat × ksmbd_tree_connect => e.1) _ (p, t) haddr hmem
  unfold tree_at
  simp only at this
  rw [this]
  rfl

/-- The object at an address of the session is an entry of its list. -/
theorem mem_of_tree_at (sess : ksmbd_session) (p : Nat) (t : ksmbd_tree_connect)
    (h : tree_at sess p = some t) : (p, t) ∈ sess.tree_conn_list := by
  unfold tree_at at h
  rcases hf : sess.tree_conn_list.find? (fun e => decide (e.1 = p)) with _ | e
  · rw [hf] at h; cases h
  · rw [hf] at h
    have h1 : e.1 = p := by simpa using List.find?_some hf
    have h2 : e.2 = t := by simpa using h
    have := List.mem_of_find?_eq_some hf
    rw [← h1, ← h2]
    exact this

/-- With pairwise distinct addresses, a store to the address of an entry replaces that
entry and no other. -/
theorem map_store_split (l : List (Nat × ksmbd_tree_connect)) (p : Nat)
    (t u : ksmbd_tree_connect) (hnd : (l.map (fun e => e.1)).Nodup) (hmem : (p, t) ∈ l) :
    ∃ l1 l2, l = l1 ++ (p, t) :: l2 ∧
      l.map (fun e => if e.1 = p then (e.1, u) else e) = l1 ++ (p, u) :: l2 := by
  obtain ⟨l1, l2, hl⟩ := List.append_of_mem hmem
  subst hl
  refine ⟨l1, l2, rfl, ?_⟩
  rw [List.map_append, List.map_cons, List.nodup_append] at hnd
  obtain ⟨_, h2, hdis⟩ := hnd
  have hp2 : p ∉ l2.map (fun e => e.1) := (List.nodup_cons.mp h2).1
  have hp1 : p ∉ l1.map (fun e => e.1) := fun h => hdis h (List.mem_cons_self _ _)
  have hid : ∀ (l : List (Nat × ksmbd_tree_connect)), p ∉ l.map (fun e => e.1) →
      l.map (fun e => if e.1 = p then (e.1, u) else e) = l := by
    intro l hl
    conv_rhs => rw [← List.map_id l]
    apply List.map_congr_left
    intro e he
    have : e.1 ≠ p := fun h => hl (h ▸ List.mem_map_of_mem (fun e => e.1) he)
    simp [this]
  rw [List.map_append, List.map_cons, hid l1 hp1, hid l2 hp2]
  simp

/-- Storing the object that is already there changes nothing. -/
theorem store_same (sess : ksmbd_session) (p : Nat) (t : ksmbd_tree_connect)
    (haddr : distinct_addresses sess) (hmem : (p, t) ∈ sess.tree_conn_list) :
    store_tree sess p t = sess := by
  obtain ⟨l1, l2, h1, h2⟩ := map_store_split _ p t t haddr hmem
  unfold store_tree
  rw [h2, ← h1]

/-- The object at an address after a store to it. -/
theorem tree_at_store (sess : ksmbd_session) (p : Nat) (t u : ksmbd_tree_connect)
    (hmem : (p, t) ∈ sess.tree_conn_list) : tree_at (store_tree sess p u) p = some u := by
  unfold tree_at store_tree
  generalize sess.tree_conn_list = l at hmem
  induction l with
  | nil => cases hmem
  | cons a l ih =>
    by_cases ha : a.1 = p
    · simp [ha]
    · have hin : (p, t) ∈ l := by
        rcases List.mem_cons.mp hmem with h | h
        · exact absurd (by rw [← h]) ha
        · exact h
      simp only [List.map_cons, if_neg ha]
      rw [List.find?_cons_of_neg _ (by simpa using ha)]
      exact ih hin

/-- A lookup that returns `p` found at `p` a tree connect in state `TREE_CONNECTED` with
nonzero refcount, and added one to that refcount. -/
theorem lookup_some_inv (sess : ksmbd_session) (i : Nat) (tcon_uninit : Option Nat)
    (s1 : ksmbd_session) (p : Nat)
    (h : ksmbd_tree_conn_lookup sess i tcon_uninit = some (s1, some p)) :
    ∃ t, (p, t) ∈ sess.tree_conn_list ∧ t.t_state = TREE_CONNECTED ∧ t.refcount ≠ 0 ∧
      s1 = store_tree sess p { t with refcount := t.refcount + 1 } := by
  have key : ∀ (q : Nat) (t : ksmbd_tree_connect), (q, t) ∈ sess.tree_conn_list →
      (if t.t_state ≠ TREE_CONNECTED then some (sess, none)
        else if (atomic_inc_not_zero t.refcount).1 = true then
          some (store_tree sess q { t with refcount := (atomic_inc_not_zero t.refcount).2 },
            some q)
        else some (sess, (none : Option Nat))) = some (s1, some p) →
      ∃ t, (p, t) ∈ sess.tree_conn_list ∧ t.t_state = TREE_CONNECTED ∧ t.refcount ≠ 0 ∧
        s1 = store_tree sess p { t with refcount := t.refcount + 1 } := by
    intro q t hmem hq
    by_cases hs : t.t_state = TREE_CONNECTED
    · by_cases hr : t.refcount = 0
      · simp [hs, hr, atomic_inc_not_zero] at hq
      · simp [hs, hr, atomic_inc_not_zero] at hq
        obtain ⟨h1, h2⟩ := hq
        subst h2
        refine ⟨t, hmem, hs, hr, ?_⟩
        rw [← h1, hs]
    · simp [hs] at hq
  unfold ksmbd_tree_conn_lookup at h
  rcases hf : sess.tree_conn_list.find? (fun e => decide (e.2.id = (i : Int))) with _ | e
  · rw [hf] at h
    rcases tcon_uninit with _ | q
    · simp at h
    · rcases ht : tree_at sess q with _ | t
      · simp [ht] at h
      · simp only [ht, Option.map_some'] at h
        exact key q t (mem_of_tree_at _ _ _ ht) h
  · rw [hf] at h
    exact key e.1 e.2 (List.mem_of_find?_eq_some hf) h

/-- With `tcon` holding `NULL` on entry, the lookup of an id that no tree connect of the
session has returns `NULL` and changes nothing. -/
theorem lookup_absent_null (sess : ksmbd_session) (i : Nat)
    (h : ∀ e ∈ sess.tree_conn_list, e.2.id ≠ (i : Int)) :
    ksmbd_tree_conn_lookup sess i none = some (sess, none) := by
  have hf : sess.tree_conn_list.find? (fun e => decide (e.2.id = (i : Int))) = none := by
    rw [List.find?_eq_none]
    intro e he
    simpa using h e he
  unfold ksmbd_tree_conn_lookup
  rw [hf]

/-! ## Claims on `ksmbd_tree_conn_lookup` and `ksmbd_tree_connect_put` -/

/-- C7 (failing input): the session holds one tree connect, with id 1, at address 4096,
and none with id 2.  When the uninitialised `tcon` holds `NULL` on entry, the lookup of
id 2 returns `NULL` and changes nothing; when it holds the address 4096, the lookup of
id 2 returns that address and raises the refcount of the tree connect from 1 to 2. -/
theorem lookup_absent_id_reads_uninitialised_tcon :
    (∀ e ∈ ex_session_one.tree_conn_list, e.2.id ≠ 2) ∧
    ksmbd_tree_conn_lookup ex_session_one 2 none = some (ex_session_one, none) ∧
    ksmbd_tree_conn_lookup ex_session_one 2 (some 4096) =
      some ({ ex_session_one with
              tree_conn_list := [(4096, { ex_tree with refcount := 2 })] }, some 4096) := by
  decide

/-- C8: in a session whose tree connects have pairwise distinct ids, when the tree
connect with id `i` is not in state `TREE_CONNECTED`, or has refcount zero, the lookup of
`i` returns `NULL` and leaves the session, that refcount included, as it is. -/
theorem lookup_not_connected_or_drained (sess : ksmbd_session) (i : Nat)
    (tcon_uninit : Option Nat) (p : Nat) (t : ksmbd_tree_connect)
    (hids : distinct_ids sess) (hmem : (p, t) ∈ sess.tree_conn_list)
    (hid : t.id = (i : Int))
    (h : t.t_state ≠ TREE_CONNECTED ∨ t.refcount = 0) :
    ksmbd_tree_conn_lookup sess i tcon_uninit = some (sess, none) := by
  rw [lookup_found sess i tcon_uninit (p, t) (find_id_of_mem sess i p t hids hmem hid)]
  rcases h with h | h
  · simp [h]
  · simp [h]

/-- C8, at a concrete input: a Disconnected tree connect with id 1. -/
theorem lookup_not_connected_or_drained_witness :
    ksmbd_tree_conn_lookup ex_session_disconnected 1 (some 4096) =
      some (ex_session_disconnected, none) :=
  lookup_not_connected_or_drained ex_session_disconnected 1 (some 4096) 4096
    { ex_tree with t_state := TREE_DISCONNECTED } (by decide) (by decide) (by decide)
    (Or.inl (by decide))

/-- C9: in a session whose tree connects have pairwise distinct ids (and are distinct
objects), when the tree connect `t` with id `i`, at address `p`, is in state
`TREE_CONNECTED` with refcount `r > 0`, the lookup of `i` returns `p`; afterwards the
session list is the one before with `t` replaced, at its place, by `t` with refcount
`r + 1`, and the rest of the session is as before. -/
theorem lookup_connected (sess : ksmbd_session) (i : Nat) (tcon_uninit : Option Nat)
    (p : Nat) (t : ksmbd_tree_connect)
    (hids : distinct_ids sess) (haddr : distinct_addresses sess)
    (hmem : (p, t) ∈ sess.tree_conn_list) (hid : t.id = (i : Int))
    (hst : t.t_state = TREE_CONNECTED) (hr : 0 < t.refcount) :
    ∃ l1 l2,
      sess.tree_conn_list = l1 ++ (p, t) :: l2 ∧
      ksmbd_tree_conn_lookup sess i tcon_uninit =
        some ({ sess with
                tree_conn_list := l1 ++ (p, { t with refcount := t.refcount + 1 }) :: l2 },
              some p) := by
  obtain ⟨l1, l2, h1, h2⟩ :=
    map_store_split sess.tree_conn_list p t { t with refcount := t.refcount + 1 } haddr hmem
  refine ⟨l1, l2, h1, ?_⟩
  rw [lookup_found sess i tcon_uninit (p, t) (find_id_of_mem sess i p t hids hmem hid)]
  have hne : t.refcount ≠ 0 := ne_of_gt hr
  dsimp only
  rw [if_neg (not_not.mpr hst), if_neg hne]
  unfold store_tree
  rw [h2]

/-- C9, at a concrete input: two tree connects, the lookup is for the second. -/
theorem lookup_connected_witness :
    ∃ l1 l2,
      [((8192 : Nat), { ex_tree with id := 2 }), (4096, ex_tree)] = l1 ++ (4096, ex_tree) :: l2 ∧
      ksmbd_tree_conn_lookup
          { ex_session_one with
            tree_conn_list := [(8192, { ex_tree with id := 2 }), (4096, ex_tree)] }
          1 none =
        some ({ ex_session_one with
                tree_conn_list :=
                  l1 ++ (4096, { ex_tree with refcount := ex_tree.refcount + 1 }) :: l2 },
              some 4096) :=
  lookup_connected
    { ex_session_one with tree_conn_list := [(8192, { ex_tree with id := 2 }), (4096, ex_tree)] }
    1 none 4096 ex_tree (by decide) (by decide) (by decide) (by decide) (by decide) (by decide)

/-- C10: after a lookup that returned the tree connect at address `p` (the tree connects
of the session being distinct objects), `ksmbd_tree_connect_put` on `p` gives back the
session as it was before the lookup, the refcount having gone from `r` to `r + 1` and
back, and does not call `wake_up`.  By itself `ksmbd_tree_connect_put` lowers the
refcount by one, changes no other field, and calls `wake_up` exactly when the new value
is zero and the wait queue has a waiter. -/
theorem lookup_put_roundtrip (sess : ksmbd_session) (i : Nat) (tcon_uninit : Option Nat)
    (s1 : ksmbd_session) (p : Nat) (haddr : distinct_addresses sess)
    (h : ksmbd_tree_conn_lookup sess i tcon_uninit = some (s1, some p)) :
    (∃ t, tree_at sess p = some t ∧
      tree_at s1 p = some { t with refcount := t.refcount + 1 } ∧
      put_at s1 p = some (sess, false)) ∧
    (∀ tcon : ksmbd_tree_connect,
      (ksmbd_tree_connect_put tcon).1 = { tcon with refcount := tcon.refcount - 1 } ∧
      ((ksmbd_tree_connect_put tcon).2 = true ↔
        tcon.refcount - 1 = 0 ∧ 0 < tcon.refcount_q)) := by
  constructor
  · obtain ⟨t, hmem, _, hr, hs1⟩ := lookup_some_inv sess i tcon_uninit s1 p h
    have hat1 : tree_at s1 p = some { t with refcount := t.refcount + 1 } := by
      rw [hs1]; exact tree_at_store sess p t _ hmem
    refine ⟨t, tree_at_of_mem sess p t haddr hmem, hat1, ?_⟩
    unfold put_at
    rw [hat1]
    simp only [ksmbd_tree_connect_put, atomic_dec_return, add_sub_cancel_right]
    rw [hs1, store_store, store_same sess p t haddr hmem]
    simp [hr]
  · intro tcon
    simp [ksmbd_tree_connect_put, atomic_dec_return]

/-- C10, at a concrete input: refcount 1, 2 after the lookup, 1 after the put. -/
theorem lookup_put_roundtrip_witness :
    (∃ t, tree_at ex_session_one 4096 = some t ∧
      tree_at { ex_session_one with tree_conn_list := [(4096, { ex_tree with refcount := 2 })] }
        4096 = some { t with refcount := t.refcount + 1 } ∧
      put_at { ex_session_one with tree_conn_list := [(4096, { ex_tree with refcount := 2 })] }
        4096 = some (ex_session_one, false)) ∧
    (∀ tcon : ksmbd_tree_connect,
      (ksmbd_tree_connect_put tcon).1 = { tcon with refcount := tcon.refcount - 1 } ∧
      ((ksmbd_tree_connect_put tcon).2 = true ↔
        tcon.refcount - 1 = 0 ∧ 0 < tcon.refcount_q)) :=
  lookup_put_roundtrip ex_session_one 1 none
    { ex_session_one with tree_conn_list := [(4096, { ex_tree with refcount := 2 })] } 4096
    (by decide) (by decide)

/-! ## Lemmas on `ksmbd_tree_conn_disconnect` -/

/-- With pairwise distinct addresses, the list splits around an entry, and no other
entry has its address. -/
theorem split_at_address (l : List (Nat × ksmbd_tree_connect)) (p : Nat)
    (t : ksmbd_tree_connect) (hnd : (l.map (fun e => e.1)).Nodup) (hmem : (p, t) ∈ l) :
    ∃ l1 l2, l = l1 ++ (p, t) :: l2 ∧
      (∀ e ∈ l1, e.1 ≠ p) ∧ (∀ e ∈ l2, e.1 ≠ p) := by
  obtain ⟨l1, l2, hl⟩ := List.append_of_mem hmem
  subst hl
  refine ⟨l1, l2, rfl, ?_, ?_⟩
  · rw [List.map_append, List.map_cons, List.nodup_append] at hnd
    intro e he h
    exact hnd.2.2 (List.mem_map_of_mem (fun e => e.1) he) (by simp [h])
  · rw [List.map_append, List.map_cons, List.nodup_append] at hnd
    intro e he h
    exact (List.nodup_cons.mp hnd.2.1).1 (h ▸ List.mem_map_of_mem (fun e => e.1) he)

/-- A store to an address that no entry of the list has changes nothing. -/
theorem map_store_absent (l : List (Nat × ksmbd_tree_connect)) (p : Nat)
    (u : ksmbd_tree_connect) (h : ∀ e ∈ l, e.1 ≠ p) :
    l.map (fun e => if e.1 = p then (e.1, u) else e) = l := by
  conv_rhs => rw [← List.map_id l]
  apply List.map_congr_left
  intro e he
  simp [h e he]

/-- Taking out the object at an address that no entry of the list has changes
nothing. -/
theorem filter_absent (l : List (Nat × ksmbd_tree_connect)) (p : Nat)
    (h : ∀ e ∈ l, e.1 ≠ p) : l.filter (fun e => decide (e.1 ≠ p)) = l := by
  rw [List.filter_eq_self]
  intro e he
  simpa using h e he

/-- The object at an address is the first entry with that address. -/
theorem tree_at_split (sess : ksmbd_session) (l1 l2 : List (Nat × ksmbd_tree_connect))
    (p : Nat) (t : ksmbd_tree_connect) (hl : sess.tree_conn_list = l1 ++ (p, t) :: l2)
    (h1 : ∀ e ∈ l1, e.1 ≠ p) : tree_at sess p = some t := by
  unfold tree_at
  rw [hl, List.find?_append]
  have : l1.find? (fun e => decide (e.1 = p)) = none := by
    rw [List.find?_eq_none]
    intro e he
    simpa using h1 e he
  rw [this]
  simp

/-- A store to the address of an entry around which the list splits. -/
theorem store_tree_split (sess : ksmbd_session) (l1 l2 : List (Nat × ksmbd_tree_connect))
    (p : Nat) (t u : ksmbd_tree_connect) (hl : sess.tree_conn_list = l1 ++ (p, t) :: l2)
    (h1 : ∀ e ∈ l1, e.1 ≠ p) (h2 : ∀ e ∈ l2, e.1 ≠ p) :
    store_tree sess p u = { sess with tree_conn_list := l1 ++ (p, u) :: l2 } := by
  unfold store_tree
  rw [hl, List.map_append, List.map_cons, map_store_absent l1 p u h1,
    map_store_absent l2 p u h2]
  simp

/-- The result of `ksmbd_tree_conn_disconnect` on an entry with refcount 1 around which
the list splits. -/
theorem disconnect_split (reply : Nat → Int) (sv : Server)
    (l1 l2 : List (Nat × ksmbd_tree_connect)) (p : Nat) (t : ksmbd_tree_connect) (sc : Nat)
    (hl : sv.w.sess.tree_conn_list = l1 ++ (p, t) :: l2)
    (h1 : ∀ e ∈ l1, e.1 ≠ p) (h2 : ∀ e ∈ l2, e.1 ≠ p)
    (hr : t.refcount = 1) (hsc : t.share_conf = some sc) :
    ksmbd_tree_conn_disconnect reply sv p =
      outcome.returned
        { w := { shares := ksmbd_share_config_put sv.w.shares sc,
                 sess := { sv.w.sess with
                           tree_conn_ida := sv.w.sess.tree_conn_ida.erase t.id,
                           tree_conn_list := l1 ++ l2 } },
          requests := sv.requests ++ [(sv.w.sess.id, t.id)] }
        (reply sv.requests.length) := by
  have hat := tree_at_split sv.w.sess l1 l2 p t hl h1
  have hst := store_tree_split sv.w.sess l1 l2 p t { t with refcount := 0 } hl h1 h2
  have hdec : disconnect_dec sv.w.sess p =
      some ({ sv.w.sess with tree_conn_list := l1 ++ (p, { t with refcount := 0 }) :: l2 },
        true) := by
    unfold disconnect_dec
    rw [hat]
    simp only [atomic_dec_and_test, hr, sub_self, decide_True]
    rw [hst]
  have hat2 : tree_at { sv.w.sess with
      tree_conn_list := l1 ++ (p, { t with refcount := 0 }) :: l2 } p =
      some { t with refcount := 0 } :=
    tree_at_split _ l1 l2 p _ rfl h1
  have hclean : disconnect_cleanup reply
      { sv with w := { sv.w with sess := { sv.w.sess with
          tree_conn_list := l1 ++ (p, { t with refcount := 0 }) :: l2 } } } p =
      some ({ w := { shares := ksmbd_share_config_put sv.w.shares sc,
                     sess := { sv.w.sess with
                               tree_conn_ida := sv.w.sess.tree_conn_ida.erase t.id,
                               tree_conn_list := l1 ++ l2 } },
              requests := sv.requests ++ [(sv.w.sess.id, t.id)] },
            reply sv.requests.length) := by
    unfold disconnect_cleanup
    dsimp only
    rw [hat2]
    dsimp only
    rw [hsc]
    dsimp only [ksmbd_ipc_tree_disconnect_request, ksmbd_release_tree_conn_id]
    rw [List.filter_append, List.filter_cons, filter_absent l1 p h1, filter_absent l2 p h2]
    simp
  unfold ksmbd_tree_conn_disconnect
  rw [hdec]
  dsimp only
  rw [hclean]

/-- A release takes one reference from the handle and from no other, count by count. -/
theorem put_refcount_apply (tbl : share_table) (sc h : Nat) :
    (ksmbd_share_config_put tbl sc).refcount h =
      tbl.refcount h - if h = sc then 1 else 0 := by
  rw [put_refcount]
  by_cases hh : h = sc <;> simp [hh]

/-- The statuses of `n + 1` requests in a row are the first status followed by the
statuses of the next `n`. -/
theorem statuses_succ (reply : Nat → Int) (base n : Nat) :
    (List.range (n + 1)).map (fun k => reply (base + k)) =
      reply base :: (List.range n).map (fun k => reply (base + 1 + k)) := by
  rw [List.range_succ_eq_map, List.map_cons, List.map_map]
  simp only [Nat.add_zero, List.cons.injEq, true_and]
  apply List.map_congr_left
  intro k _
  simp only [Function.comp, Nat.succ_eq_add_one]
  congr 1
  omega

/-- The loop of `ksmbd_tree_conn_session_logoff` on a list whose entries all have
refcount 1, a state other than `TREE_DISCONNECTED` and a share configuration: with fuel
for one pass per entry and the last test, the loop returns with the list empty, one
request per entry in list order, the ids released, one reference per entry given back,
and the statuses or-ed into `ret`. -/
theorem logoff_loop_spec (reply : Nat → Int) :
    ∀ (l : List (Nat × ksmbd_tree_connect)) (sv : Server) (ret : Int) (fuel : Nat),
      sv.w.sess.tree_conn_list = l → (l.map (fun e => e.1)).Nodup →
      (∀ e ∈ l, e.2.refcount = 1 ∧ e.2.t_state ≠ TREE_DISCONNECTED ∧ e.2.share_conf ≠ none) →
      l.length < fuel →
      ∃ sv', logoff_loop reply fuel sv ret =
          outcome.returned sv'
            (((List.range l.length).map (fun k => reply (sv.requests.length + k))).foldl
              Int.lor ret) ∧
        sv'.w.sess.tree_conn_list = [] ∧
        sv'.requests = sv.requests ++ l.map (fun e => (sv.w.sess.id, e.2.id)) ∧
        sv'.w.sess.tree_conn_ida =
          sv.w.sess.tree_conn_ida \ (l.map (fun e => e.2.id)).toFinset ∧
        (∀ h, sv'.w.shares.refcount h =
          sv.w.shares.refcount h - (l.countP (fun e => e.2.share_conf = some h) : Nat)) ∧
        sv'.w.sess.id = sv.w.sess.id ∧ sv'.w.sess.user = sv.w.sess.user := by
  intro l
  induction l with
  | nil =>
    intro sv ret fuel hl _ _ hfuel
    obtain ⟨f, rfl⟩ : ∃ f, fuel = f + 1 := ⟨fuel - 1, by omega⟩
    refine ⟨sv, ?_, hl, by simp, by simp, by simp, rfl, rfl⟩
    unfold logoff_loop
    rw [hl]
    rfl
  | cons a rest ih =>
    intro sv ret fuel hl hnd hall hfuel
    obtain ⟨f, rfl⟩ : ∃ f, fuel = f + 1 := ⟨fuel - 1, by omega⟩
    obtain ⟨p, tc⟩ := a
    obtain ⟨hr, hstate, hshare⟩ := hall (p, tc) (List.mem_cons_self _ _)
    obtain ⟨sc, hsc⟩ : ∃ sc, tc.share_conf = some sc := Option.ne_none_iff_exists'.mp hshare
    rw [List.map_cons, List.nodup_cons] at hnd
    have hrest : ∀ e ∈ rest, e.1 ≠ p := by
      intro e he h
      exact hnd.1 (h ▸ List.mem_map_of_mem (fun e => e.1) he)
    have hdisc := disconnect_split reply
      { sv with w := { sv.w with sess := { sv.w.sess with
          tree_conn_list := (p, { tc with t_state := TREE_DISCONNECTED }) :: rest } } }
      [] rest p { tc with t_state := TREE_DISCONNECTED } sc rfl (by simp) hrest hr hsc
    obtain ⟨sv', hrun, hlist, hreq, hida, hrc, hid, huser⟩ :=
      ih { w := { shares := ksmbd_share_config_put sv.w.shares sc,
                  sess := { sv.w.sess with
                            tree_conn_ida := sv.w.sess.tree_conn_ida.erase tc.id,
                            tree_conn_list := rest } },
           requests := sv.requests ++ [(sv.w.sess.id, tc.id)] }
        (Int.lor ret (reply sv.requests.length)) f rfl hnd.2
        (fun e he => hall e (List.mem_cons_of_mem _ he))
        (by simpa using hfuel)
    refine ⟨sv', ?_, hlist, ?_, ?_, ?_, hid, huser⟩
    · unfold logoff_loop
      rw [hl]
      dsimp only
      rw [if_neg hstate, hdisc]
      dsimp only [List.nil_append] at hrun ⊢
      rw [hrun, List.length_cons, statuses_succ, List.foldl_cons]
      simp [Nat.add_assoc]
    · rw [hreq]
      simp
    · rw [hida]
      ext x
      simp only [Finset.mem_sdiff, Finset.mem_erase, List.map_cons, List.toFinset_cons,
        Finset.mem_insert, List.mem_toFinset]
      tauto
    · intro h
      rw [hrc h]
      show (ksmbd_share_config_put sv.w.shares sc).refcount h - _ = _
      rw [put_refcount_apply, List.countP_cons]
      by_cases hh : h = sc
      · subst hh
        simp [hsc]
        omega
      · have : ¬ (some sc = some h) := fun e => hh (Option.some.inj e).symm
        simp [hsc, hh, this]

/-- The bitwise or of two natural numbers is zero exactly when both are. -/
theorem nat_lor_eq_zero (m n : Nat) : m ||| n = 0 ↔ m = 0 ∧ n = 0 := by
  constructor
  · intro h
    have hb : ∀ i, (m.testBit i || n.testBit i) = false := by
      intro i
      rw [← Nat.testBit_or, h, Nat.zero_testBit]
    constructor
    · apply Nat.eq_of_testBit_eq
      intro i
      have := hb i
      rw [Bool.or_eq_false_iff] at this
      rw [this.1, Nat.zero_testBit]
    · apply Nat.eq_of_testBit_eq
      intro i
      have := hb i
      rw [Bool.or_eq_false_iff] at this
      rw [this.2, Nat.zero_testBit]
  · rintro ⟨rfl, rfl⟩
    rfl

/-- The bitwise or of two integers is zero exactly when both are. -/
theorem int_lor_eq_zero (a b : Int) : Int.lor a b = 0 ↔ a = 0 ∧ b = 0 := by
  cases a with
  | ofNat m =>
    cases b with
    | ofNat n =>
      show ((m ||| n : Nat) : Int) = 0 ↔ _
      rw [Int.natCast_eq_zero, nat_lor_eq_zero]
      simp
    | negSucc n =>
      show Int.negSucc _ = 0 ↔ _
      constructor
      · intro h; cases h
      · rintro ⟨_, h⟩; cases h
  | negSucc m =>
    constructor
    · intro h
      cases b <;> cases h
    · rintro ⟨h, _⟩; cases h

/-- A chain of bitwise ors is zero exactly when its start and every term are. -/
theorem foldl_lor_eq_zero (l : List Int) (r : Int) :
    l.foldl Int.lor r = 0 ↔ r = 0 ∧ ∀ x ∈ l, x = 0 := by
  induction l generalizing r with
  | nil => simp
  | cons a l ih =>
    rw [List.foldl_cons, ih, int_lor_eq_zero]
    simp only [List.mem_cons, forall_eq_or_imp]
    tauto

/-- With the head of the list in state `TREE_DISCONNECTED`, a pass of the loop of
`ksmbd_tree_conn_session_logoff` leaves the list as it is, so the loop is still running
after any number of passes. -/
theorem logoff_loop_disconnected_head (reply : Nat → Int) (sv : Server) (p : Nat)
    (tc : ksmbd_tree_connect) (rest : List (Nat × ksmbd_tree_connect))
    (hl : sv.w.sess.tree_conn_list = (p, tc) :: rest)
    (hd : tc.t_state = TREE_DISCONNECTED) :
    ∀ (fuel : Nat) (ret : Int), logoff_loop reply fuel sv ret = outcome.still_running := by
  intro fuel
  induction fuel with
  | zero => intro ret; rfl
  | succ f ih =>
    intro ret
    unfold logoff_loop
    rw [hl]
    dsimp only
    rw [if_pos hd]
    exact ih _

/-! ## Claims on `ksmbd_tree_conn_disconnect` and `ksmbd_tree_conn_session_logoff` -/

/-- C11: for a tree connect `t` of the session with refcount 1 (the tree connects of the
session being distinct objects, `t` having a share configuration),
`ksmbd_tree_conn_disconnect` returns the status of the disconnect request, whatever it
is; it has sent that one request, with the session id and the id of `t`; the id of `t`
is released; `t` is out of the list and the other entries are as before, in their order;
one reference of the share configuration of `t` is given back and no other count
changes. -/
theorem disconnect_returns_request_status (reply : Nat → Int) (sv : Server) (p : Nat)
    (t : ksmbd_tree_connect) (sc : Nat)
    (haddr : distinct_addresses sv.w.sess) (hmem : (p, t) ∈ sv.w.sess.tree_conn_list)
    (hr : t.refcount = 1) (hsc : t.share_conf = some sc) :
    ∃ l1 l2 sv',
      sv.w.sess.tree_conn_list = l1 ++ (p, t) :: l2 ∧
      ksmbd_tree_conn_disconnect reply sv p =
        outcome.returned sv' (reply sv.requests.length) ∧
      sv'.requests = sv.requests ++ [(sv.w.sess.id, t.id)] ∧
      sv'.w.sess.tree_conn_ida = sv.w.sess.tree_conn_ida.erase t.id ∧
      sv'.w.sess.tree_conn_list = l1 ++ l2 ∧
      (∀ e ∈ sv'.w.sess.tree_conn_list, e.1 ≠ p) ∧
      (∀ h, sv'.w.shares.refcount h = sv.w.shares.refcount h - if h = sc then 1 else 0) ∧
      sv'.w.sess.id = sv.w.sess.id ∧ sv'.w.sess.user = sv.w.sess.user := by
  obtain ⟨l1, l2, hl, h1, h2⟩ := split_at_address sv.w.sess.tree_conn_list p t haddr hmem
  refine ⟨l1, l2, _, hl, disconnect_split reply sv l1 l2 p t sc hl h1 h2 hr hsc, rfl, rfl,
    rfl, ?_, fun h => put_refcount_apply _ _ _, rfl, rfl⟩
  intro e he
  rcases List.mem_append.mp he with h | h
  · exact h1 e h
  · exact h2 e h

/-- C11, at a concrete input: the second of two tree connects is disconnected and the
request is answered with status 3. -/
theorem disconnect_returns_request_status_witness :
    ∃ l1 l2 sv',
      ex_server_two.w.sess.tree_conn_list = l1 ++ (4096, ex_tree) :: l2 ∧
      ksmbd_tree_conn_disconnect (fun _ => 3) ex_server_two 4096 =
        outcome.returned sv' ((fun _ => (3 : Int)) ex_server_two.requests.length) ∧
      sv'.requests = ex_server_two.requests ++ [(ex_server_two.w.sess.id, ex_tree.id)] ∧
      sv'.w.sess.tree_conn_ida = ex_server_two.w.sess.tree_conn_ida.erase ex_tree.id ∧
      sv'.w.sess.tree_conn_list = l1 ++ l2 ∧
      (∀ e ∈ sv'.w.sess.tree_conn_list, e.1 ≠ 4096) ∧
      (∀ h, sv'.w.shares.refcount h =
        ex_server_two.w.shares.refcount h - if h = 1 then 1 else 0) ∧
      sv'.w.sess.id = ex_server_two.w.sess.id ∧
      sv'.w.sess.user = ex_server_two.w.sess.user :=
  disconnect_returns_request_status (fun _ => 3) ex_server_two 4096 ex_tree 1
    (by decide) (by decide) (by decide) (by decide)

/-- C12: for a session whose `N` tree connects are distinct objects, each with refcount
1, a state other than `TREE_DISCONNECTED` and a share configuration, and with no other
task running, `ksmbd_tree_conn_session_logoff` returns after at most `N + 1` tests of
the loop condition; the list is then empty, `N` disconnect requests have been sent, one
for the id of each entry in list order, these ids are released, and every share
configuration has lost one reference per tree connect that pointed to it. -/
theorem logoff_disconnects_all (reply : Nat → Int) (sv : Server) (fuel : Nat)
    (haddr : distinct_addresses sv.w.sess)
    (hall : ∀ e ∈ sv.w.sess.tree_conn_list,
      e.2.refcount = 1 ∧ e.2.t_state ≠ TREE_DISCONNECTED ∧ e.2.share_conf ≠ none)
    (hfuel : sv.w.sess.tree_conn_list.length < fuel) :
    ∃ sv' ret,
      ksmbd_tree_conn_session_logoff reply fuel sv = outcome.returned sv' ret ∧
      sv'.w.sess.tree_conn_list = [] ∧
      sv'.requests =
        sv.requests ++ sv.w.sess.tree_conn_list.map (fun e => (sv.w.sess.id, e.2.id)) ∧
      sv'.requests.length = sv.requests.length + sv.w.sess.tree_conn_list.length ∧
      sv'.w.sess.tree_conn_ida =
        sv.w.sess.tree_conn_ida \ (sv.w.sess.tree_conn_list.map (fun e => e.2.id)).toFinset ∧
      (∀ h, sv'.w.shares.refcount h =
        sv.w.shares.refcount h -
          (sv.w.sess.tree_conn_list.countP (fun e => e.2.share_conf = some h) : Nat)) := by
  obtain ⟨sv', hrun, hlist, hreq, hida, hrc, _, _⟩ :=
    logoff_loop_spec reply sv.w.sess.tree_conn_list sv 0 fuel rfl haddr hall hfuel
  refine ⟨sv', _, hrun, hlist, hreq, ?_, hida, hrc⟩
  rw [hreq]
  simp

/-- C12, at a concrete input: two tree connects, three tests of the loop condition. -/
theorem logoff_disconnects_all_witness :
    ∃ sv' ret,
      ksmbd_tree_conn_session_logoff ex_reply 3 ex_server_two = outcome.returned sv' ret ∧
      sv'.w.sess.tree_conn_list = [] ∧
      sv'.requests =
        ex_server_two.requests ++
          ex_server_two.w.sess.tree_conn_list.map (fun e => (ex_server_two.w.sess.id, e.2.id)) ∧
      sv'.requests.length =
        ex_server_two.requests.length + ex_server_two.w.sess.tree_conn_list.length ∧
      sv'.w.sess.tree_conn_ida =
        ex_server_two.w.sess.tree_conn_ida \
          (ex_server_two.w.sess.tree_conn_list.map (fun e => e.2.id)).toFinset ∧
      (∀ h, sv'.w.shares.refcount h =
        ex_server_two.w.shares.refcount h -
          (ex_server_two.w.sess.tree_conn_list.countP
            (fun e => e.2.share_conf = some h) : Nat)) :=
  logoff_disconnects_all ex_reply ex_server_two 3 (by decide) (by decide) (by decide)

/-- C13: under the precondition of C12 the value `ksmbd_tree_conn_session_logoff`
returns is the bitwise or of the statuses of the `N` disconnect requests, in the order
they were sent; it is zero exactly when every one of these statuses is zero; whatever
the statuses are, all `N` requests are sent and the list ends empty. -/
theorem logoff_status_is_or (reply : Nat → Int) (sv : Server) (fuel : Nat)
    (haddr : distinct_addresses sv.w.sess)
    (hall : ∀ e ∈ sv.w.sess.tree_conn_list,
      e.2.refcount = 1 ∧ e.2.t_state ≠ TREE_DISCONNECTED ∧ e.2.share_conf ≠ none)
    (hfuel : sv.w.sess.tree_conn_list.length < fuel) :
    ∃ sv',
      ksmbd_tree_conn_session_logoff reply fuel sv =
        outcome.returned sv'
          (((List.range sv.w.sess.tree_conn_list.length).map
            (fun k => reply (sv.requests.length + k))).foldl Int.lor 0) ∧
      ((((List.range sv.w.sess.tree_conn_list.length).map
          (fun k => reply (sv.requests.length + k))).foldl Int.lor 0) = 0 ↔
        ∀ k, k < sv.w.sess.tree_conn_list.length → reply (sv.requests.length + k) = 0) ∧
      sv'.w.sess.tree_conn_list = [] ∧
      sv'.requests.length = sv.requests.length + sv.w.sess.tree_conn_list.length := by
  obtain ⟨sv', hrun, hlist, hreq, _, _, _, _⟩ :=
    logoff_loop_spec reply sv.w.sess.tree_conn_list sv 0 fuel rfl haddr hall hfuel
  refine ⟨sv', hrun, ?_, hlist, by rw [hreq]; simp⟩
  rw [foldl_lor_eq_zero]
  simp

/-- C13, at a concrete input: the statuses are 0 and -5, the value returned is -5. -/
theorem logoff_status_is_or_witness :
    ∃ sv',
      ksmbd_tree_conn_session_logoff ex_reply 3 ex_server_two =
        outcome.returned sv'
          (((List.range ex_server_two.w.sess.tree_conn_list.length).map
            (fun k => ex_reply (ex_server_two.requests.length + k))).foldl Int.lor 0) ∧
      ((((List.range ex_server_two.w.sess.tree_conn_list.length).map
          (fun k => ex_reply (ex_server_two.requests.length + k))).foldl Int.lor 0) = 0 ↔
        ∀ k, k < ex_server_two.w.sess.tree_conn_list.length →
          ex_reply (ex_server_two.requests.length + k) = 0) ∧
      sv'.w.sess.tree_conn_list = [] ∧
      sv'.requests.length =
        ex_server_two.requests.length + ex_server_two.w.sess.tree_conn_list.length :=
  logoff_status_is_or ex_reply ex_server_two 3 (by decide) (by decide) (by decide)

/-- C14 (failing input): the head of the list is a tree connect in state
`TREE_DISCONNECTED`, a Connected one follows, and no other task runs.  Whatever the
number of passes, `ksmbd_tree_conn_session_logoff` is still in its loop: the pass for a
Disconnected head sets `ret` and jumps back to the loop condition with the head still
in the list, so the entry is not skipped and the one behind it is never reached. -/
theorem logoff_spins_on_disconnected_head (fuel : Nat) :
    ksmbd_tree_conn_session_logoff ex_reply fuel ex_server_disconnected_first =
      outcome.still_running :=
  logoff_loop_disconnected_head ex_reply ex_server_disconnected_first 4096
    { ex_tree with t_state := TREE_DISCONNECTED } [(8192, { ex_tree with id := 2 })]
    rfl rfl fuel 0

/-- `ksmbd_tree_conn_disconnect` on the tree connect that `connect_finish` has just put
at the head of the list, at an address no other entry has: the list and the held ids
are those before the connect, and the share reference of the tree connect is given
back. -/
theorem disconnect_after_finish (reply : Nat → Int) (reqs : List (Nat × Int))
    (shares : share_table) (sess : ksmbd_session) (a : Int) (p : Nat)
    (tc : ksmbd_tree_connect) (c : Nat) (ret : Int)
    (hfresh : a ∉ sess.tree_conn_ida) (haddr : ∀ e ∈ sess.tree_conn_list, e.1 ≠ p)
    (hid : tc.id = a) :
    ksmbd_tree_conn_disconnect reply
        { w := (connect_finish shares
                  { sess with tree_conn_ida := insert a sess.tree_conn_ida } p tc c ret).1,
          requests := reqs } p =
      outcome.returned
        { w := { shares := ksmbd_share_config_put shares c, sess := sess },
          requests := reqs ++ [(sess.id, a)] }
        (reply reqs.length) := by
  have h := disconnect_split reply
    { w := (connect_finish shares
              { sess with tree_conn_ida := insert a sess.tree_conn_ida } p tc c ret).1,
      requests := reqs }
    [] sess.tree_conn_list p
    { tc with user := sess.user, share_conf := some c, t_state := TREE_NEW, refcount := 1,
              refcount_q := 0 }
    c rfl (by simp) haddr rfl rfl
  rw [h]
  simp [connect_finish, hid, Finset.erase_insert hfresh]

/-- C19: when `ksmbd_tree_conn_connect` succeeds (the id allocator answering with an id
that was not held, the memory allocator with an address that no tree connect of the
session has) and `ksmbd_tree_conn_disconnect` is then called on the returned tree
connect, the disconnect returns, and the set of held tree ids, the reference count of
every share configuration and the tree connect list are what they were before the
connect, with or without `KSMBD_TREE_CONN_FLAG_UPDATE` in the response. -/
theorem connect_disconnect_roundtrip (env : Collaborators) (w : World) (share_name : String)
    (reply : Nat → Int) (reqs : List (Nat × Int))
    (hfresh : env.acquire ∉ w.sess.tree_conn_ida)
    (haddr : ∀ p, env.zalloc = some p → ∀ e ∈ w.sess.tree_conn_list, e.1 ≠ p)
    (hok : (ksmbd_tree_conn_connect env w share_name).2.ret = KSMBD_TREE_CONN_STATUS_OK) :
    ∃ p sv',
      (ksmbd_tree_conn_connect env w share_name).2.tree_conn = some p ∧
      ksmbd_tree_conn_disconnect reply
          { w := (ksmbd_tree_conn_connect env w share_name).1, requests := reqs } p =
        outcome.returned sv' (reply reqs.length) ∧
      sv'.w.sess.tree_conn_ida = w.sess.tree_conn_ida ∧
      sv'.w.shares.refcount = w.shares.refcount ∧
      sv'.w.sess.tree_conn_list = w.sess.tree_conn_list ∧
      sv'.w.sess = w.sess ∧
      sv'.requests = reqs ++ [(w.sess.id, env.acquire)] := by
  obtain ⟨sh1, sc, p, resp, hg, hz, _, _, _, h⟩ := connect_ok_inv env w share_name hok
  have hp := haddr p hz
  rcases h with ⟨_, h⟩ | ⟨_, sh3, new_sc, hg2, h⟩
  · refine ⟨p, { w := { shares := ksmbd_share_config_put sh1 sc, sess := w.sess },
                  requests := reqs ++ [(w.sess.id, env.acquire)] },
      by rw [h]; rfl, ?_, rfl, ?_, rfl, rfl, rfl⟩
    · rw [h]
      exact disconnect_after_finish reply reqs sh1 w.sess env.acquire p _ sc _ hfresh hp rfl
    · exact put_get_refcount _ _ _ _ _ hg
  · refine ⟨p, { w := { shares := ksmbd_share_config_put (ksmbd_share_config_put sh3 sc) new_sc,
                        sess := w.sess },
                  requests := reqs ++ [(w.sess.id, env.acquire)] },
      by rw [h]; rfl, ?_, rfl, ?_, rfl, rfl, rfl⟩
    · rw [h]
      exact disconnect_after_finish reply reqs _ w.sess env.acquire p _ new_sc _ hfresh hp rfl
    · show (ksmbd_share_config_put (ksmbd_share_config_put sh3 sc) new_sc).refcount = _
      rw [put_refcount, put_refcount, get_refcount _ _ _ _ _ hg2]
      show (fun x => (if x = new_sc then _ else _)) = _
      have hdel : (ksmbd_share_config_del sh1 sc).refcount = sh1.refcount := rfl
      rw [hdel, get_refcount _ _ _ _ _ hg]
      funext x
      dsimp only
      split_ifs <;> omega

/-- C19, at a concrete input: the response carries `KSMBD_TREE_CONN_FLAG_UPDATE`. -/
theorem connect_disconnect_roundtrip_witness :
    ∃ p sv',
      (ksmbd_tree_conn_connect ex_env_update ex_world "shareA").2.tree_conn = some p ∧
      ksmbd_tree_conn_disconnect ex_reply
          { w := (ksmbd_tree_conn_connect ex_env_update ex_world "shareA").1,
            requests := [] } p =
        outcome.returned sv' (ex_reply ([] : List (Nat × Int)).length) ∧
      sv'.w.sess.tree_conn_ida = ex_world.sess.tree_conn_ida ∧
      sv'.w.shares.refcount = ex_world.shares.refcount ∧
      sv'.w.sess.tree_conn_list = ex_world.sess.tree_conn_list ∧
      sv'.w.sess = ex_world.sess ∧
      sv'.requests = [] ++ [(ex_world.sess.id, ex_env_update.acquire)] :=
  connect_disconnect_roundtrip ex_env_update ex_world "shareA" ex_reply [] (by decide)
    (by decide) (by decide)

/-! ## Lemmas on sequences of calls -/

/-- A connect that fails leaves the session as it was, when the id allocator answered
with an id that was not held. -/
theorem connect_failure_sess (env : Collaborators) (w : World) (share_name : String)
    (hfresh : env.acquire ∉ w.sess.tree_conn_ida)
    (hfail : (ksmbd_tree_conn_connect env w share_name).2.ret ≠ KSMBD_TREE_CONN_STATUS_OK) :
    (ksmbd_tree_conn_connect env w share_name).1.sess = w.sess := by
  have hrel := release_acquire w.sess env.acquire hfresh
  unfold ksmbd_tree_conn_connect at hfail ⊢
  rcases hg : ksmbd_share_config_get w.shares env.share_reply share_name with ⟨sh, _ | sc⟩
  · rfl
  · rw [hg] at hfail
    rcases hz : env.zalloc with _ | p
    · rfl
    · rw [hz] at hfail
      dsimp only at hfail ⊢
      by_cases hid : (ksmbd_acquire_tree_conn_id w.sess env.acquire).2 < 0
      · rw [if_pos hid]
        exact hrel
      · rw [if_neg hid] at hfail ⊢
        rcases hr : env.ipc_resp with _ | resp
        · exact hrel
        · rw [hr] at hfail
          dsimp only at hfail ⊢
          by_cases hst : resp.status ≠ KSMBD_TREE_CONN_STATUS_OK
          · rw [if_pos hst]
            exact hrel
          · rw [if_neg hst] at hfail ⊢
            by_cases hfl : test_tree_conn_flag
                { zeroed_tree_connect with
                  id := (ksmbd_acquire_tree_conn_id w.sess env.acquire).2,
                  flags := resp.connection_flags } KSMBD_TREE_CONN_FLAG_UPDATE = true
            · rw [if_pos hfl] at hfail ⊢
              rcases hg2 : ksmbd_share_config_get (ksmbd_share_config_del sh sc)
                  env.share_reply_again share_name with ⟨sh3, _ | c⟩
              · exact hrel
              · rw [hg2] at hfail
                exact absurd (not_not.mp hst) hfail
            · rw [if_neg hfl] at hfail
              exact absurd (not_not.mp hst) hfail

/-- The invariant only depends on the addresses, the ids and the held ids. -/
theorem session_inv_of_same (s1 s2 : ksmbd_session)
    (ha : s2.tree_conn_list.map (fun e => e.1) = s1.tree_conn_list.map (fun e => e.1))
    (hi : s2.tree_conn_list.map (fun e => e.2.id) = s1.tree_conn_list.map (fun e => e.2.id))
    (hida : s2.tree_conn_ida = s1.tree_conn_ida) (h : session_inv s1) : session_inv s2 := by
  obtain ⟨h1, h2, h3⟩ := h
  refine ⟨?_, ?_, ?_⟩
  · unfold distinct_addresses; rw [ha]; exact h1
  · unfold distinct_ids; rw [hi]; exact h2
  · intro e he
    have : e.2.id ∈ s2.tree_conn_list.map (fun e => e.2.id) :=
      List.mem_map_of_mem (fun e => e.2.id) he
    rw [hi] at this
    obtain ⟨e', he', hid⟩ := List.mem_map.mp this
    rw [hida, ← hid]
    exact h3 e' he'

/-- A store that keeps the id of the object keeps the invariant. -/
theorem session_inv_store (sess : ksmbd_session) (p : Nat) (t u : ksmbd_tree_connect)
    (hmem : (p, t) ∈ sess.tree_conn_list) (hid : u.id = t.id) (h : session_inv sess) :
    session_inv (store_tree sess p u) := by
  obtain ⟨l1, l2, hl, h1, h2⟩ := split_at_address sess.tree_conn_list p t h.1 hmem
  rw [store_tree_split sess l1 l2 p t u hl h1 h2]
  refine session_inv_of_same sess _ ?_ ?_ rfl h
  · rw [hl]; simp
  · rw [hl]; simp [hid]

/-- A lookup that does not fault leaves the session as it is, or adds one to the
refcount of one of its tree connects. -/
theorem lookup_inv (sess : ksmbd_session) (i : Nat) (tcon_uninit : Option Nat)
    (s1 : ksmbd_session) (r : Option Nat)
    (h : ksmbd_tree_conn_lookup sess i tcon_uninit = some (s1, r)) :
    s1 = sess ∨ ∃ p t, (p, t) ∈ sess.tree_conn_list ∧
      s1 = store_tree sess p { t with refcount := t.refcount + 1 } := by
  rcases r with _ | p
  · left
    have key : ∀ (q : Nat) (t : ksmbd_tree_connect),
        (if t.t_state ≠ TREE_CONNECTED then some (sess, none)
          else if (atomic_inc_not_zero t.refcount).1 = true then
            some (store_tree sess q { t with refcount := (atomic_inc_not_zero t.refcount).2 },
              some q)
          else some (sess, (none : Option Nat))) = some (s1, none) → s1 = sess := by
      intro q t hq
      by_cases hs : t.t_state = TREE_CONNECTED
      · by_cases hr : t.refcount = 0
        · simp [hs, hr, atomic_inc_not_zero] at hq
          exact hq.symm
        · simp [hs, hr, atomic_inc_not_zero] at hq
      · simp [hs] at hq
        exact hq.symm
    unfold ksmbd_tree_conn_lookup at h
    rcases hf : sess.tree_conn_list.find? (fun e => decide (e.2.id = (i : Int))) with _ | e
    · rw [hf] at h
      rcases tcon_uninit with _ | q
      · simp at h
        exact h.symm
      · rcases ht : tree_at sess q with _ | t
        · simp [ht] at h
        · simp only [ht, Option.map_some'] at h
          exact key q t h
    · rw [hf] at h
      exact key e.1 e.2 h
  · right
    obtain ⟨t, hmem, _, _, hs1⟩ := lookup_some_inv sess i tcon_uninit s1 p h
    exact ⟨p, t, hmem, hs1⟩

/-- Taking out the object at an address after a store to that address is taking it out
of the list before the store. -/
theorem filter_store (l : List (Nat × ksmbd_tree_connect)) (p : Nat) (u : ksmbd_tree_connect) :
    (l.map (fun e => if e.1 = p then (e.1, u) else e)).filter (fun e => decide (e.1 ≠ p)) =
      l.filter (fun e => decide (e.1 ≠ p)) := by
  induction l with
  | nil => rfl
  | cons a l ih =>
    by_cases ha : a.1 = p
    · rw [List.map_cons, if_pos ha, List.filter_cons_of_neg (by simpa using ha),
        List.filter_cons_of_neg (by simpa using ha), ih]
    · simp only [List.map_cons, if_neg ha]
      rw [List.filter_cons, List.filter_cons, ih]

/-- A disconnect that returns took one tree connect of the session out of the list and
released its id. -/
theorem disconnect_returned_inv (reply : Nat → Int) (sv sv1 : Server) (p : Nat) (ret : Int)
    (h : ksmbd_tree_conn_disconnect reply sv p = outcome.returned sv1 ret) :
    ∃ t, (p, t) ∈ sv.w.sess.tree_conn_list ∧
      sv1.w.sess.tree_conn_list =
        sv.w.sess.tree_conn_list.filter (fun e => decide (e.1 ≠ p)) ∧
      sv1.w.sess.tree_conn_ida = sv.w.sess.tree_conn_ida.erase t.id := by
  unfold ksmbd_tree_conn_disconnect disconnect_dec at h
  rcases ht : tree_at sv.w.sess p with _ | t
  · rw [ht] at h
    cases h
  · rw [ht] at h
    have hmem := mem_of_tree_at _ _ _ ht
    dsimp only at h
    by_cases hz : (atomic_dec_and_test t.refcount).1 = true
    · rw [hz] at h
      dsimp only at h
      unfold disconnect_cleanup at h
      dsimp only at h
      rw [tree_at_store sv.w.sess p t _ hmem] at h
      dsimp only at h
      rcases hsc : t.share_conf with _ | sc
      · rw [hsc] at h
        cases h
      · rw [hsc] at h
        dsimp only at h
        injection h with h1 h2
        subst h1
        refine ⟨t, hmem, ?_, rfl⟩
        exact filter_store _ _ _
    · have hz2 : (atomic_dec_and_test t.refcount).1 = false := by simpa using hz
      rw [hz2] at h
      cases h

/-- A disconnect that returns keeps the invariant. -/
theorem session_inv_disconnect (reply : Nat → Int) (sv sv1 : Server) (p : Nat) (ret : Int)
    (hinv : session_inv sv.w.sess)
    (h : ksmbd_tree_conn_disconnect reply sv p = outcome.returned sv1 ret) :
    session_inv sv1.w.sess := by
  obtain ⟨t, hmem, hlist, hida⟩ := disconnect_returned_inv reply sv sv1 p ret h
  obtain ⟨h1, h2, h3⟩ := hinv
  refine ⟨?_, ?_, ?_⟩
  · unfold distinct_addresses
    rw [hlist]
    exact h1.sublist ((List.filter_sublist _).map _)
  · unfold distinct_ids
    rw [hlist]
    exact h2.sublist ((List.filter_sublist _).map _)
  · intro e he
    rw [hlist] at he
    obtain ⟨hin, hne⟩ := List.mem_filter.mp he
    have hne' : e.1 ≠ p := by simpa using hne
    rw [hida, Finset.mem_erase]
    refine ⟨?_, h3 e hin⟩
    intro hid
    have := List.inj_on_of_nodup_map h2 hin hmem hid
    exact hne' (by rw [this])

/-- A logoff loop that returns keeps the invariant. -/
theorem session_inv_logoff_loop (reply : Nat → Int) :
    ∀ (fuel : Nat) (sv : Server) (ret : Int) (sv1 : Server) (r : Int),
      session_inv sv.w.sess → logoff_loop reply fuel sv ret = outcome.returned sv1 r →
      session_inv sv1.w.sess := by
  intro fuel
  induction fuel with
  | zero =>
    intro sv ret sv1 r _ h
    cases h
  | succ f ih =>
    intro sv ret sv1 r hinv h
    unfold logoff_loop at h
    rcases hl : sv.w.sess.tree_conn_list with _ | ⟨⟨p, tc⟩, rest⟩
    · rw [hl] at h
      injection h with h1 _
      rw [← h1]
      exact hinv
    · rw [hl] at h
      dsimp only at h
      by_cases hd : tc.t_state = TREE_DISCONNECTED
      · rw [if_pos hd] at h
        exact ih sv _ sv1 r hinv h
      · rw [if_neg hd] at h
        have hinv1 : session_inv { sv.w.sess with
            tree_conn_list := (p, { tc with t_state := TREE_DISCONNECTED }) :: rest } := by
          refine session_inv_of_same sv.w.sess _ ?_ ?_ rfl hinv
          · rw [hl]; rfl
          · rw [hl]; rfl
        generalize hdisc : ksmbd_tree_conn_disconnect reply
            { sv with w := { sv.w with sess := { sv.w.sess with
                tree_conn_list := (p, { tc with t_state := TREE_DISCONNECTED }) :: rest } } }
            p = o at h
        cases o with
        | returned sv2 r2 =>
          exact ih sv2 _ sv1 r (session_inv_disconnect reply _ sv2 p r2 hinv1 hdisc) h
        | asleep _ => cases h
        | wild => cases h
        | still_running => cases h

/-- A call that returns keeps the invariant. -/
theorem session_inv_apply_op (reply : Nat → Int) (op : session_op) (sv sv1 : Server)
    (hinv : session_inv sv.w.sess) (h : apply_op reply op sv = some sv1) :
    session_inv sv1.w.sess := by
  cases op with
  | connect env share_name =>
    rw [apply_op] at h
    by_cases hfresh : env.acquire ∈ sv.w.sess.tree_conn_ida
    · rw [if_pos hfresh] at h; cases h
    · rw [if_neg hfresh] at h
      by_cases hz : ∃ e ∈ sv.w.sess.tree_conn_list, env.zalloc = some e.1
      · rw [if_pos hz] at h; cases h
      · rw [if_neg hz] at h
        injection h with h
        rw [← h]
        show session_inv (ksmbd_tree_conn_connect env sv.w share_name).1.sess
        by_cases hok : (ksmbd_tree_conn_connect env sv.w share_name).2.ret =
            KSMBD_TREE_CONN_STATUS_OK
        · obtain ⟨p, resp, c, hzp, _, _, _, hsess⟩ := connect_ok_head env sv.w share_name hok
          rw [hsess]
          obtain ⟨h1, h2, h3⟩ := hinv
          refine ⟨?_, ?_, ?_⟩
          · unfold distinct_addresses
            rw [List.map_cons, List.nodup_cons]
            refine ⟨?_, h1⟩
            intro hp
            obtain ⟨e, he, hep⟩ := List.mem_map.mp hp
            exact hz ⟨e, he, by rw [hzp, hep]⟩
          · unfold distinct_ids
            rw [List.map_cons, List.nodup_cons]
            refine ⟨?_, h2⟩
            intro hi
            obtain ⟨e, he, hei⟩ := List.mem_map.mp hi
            have hei' : e.2.id = env.acquire := hei
            exact hfresh (hei' ▸ h3 e he)
          · intro e he
            rcases List.mem_cons.mp he with rfl | he
            · exact Finset.mem_insert_self _ _
            · exact Finset.mem_insert_of_mem (h3 e he)
        · rw [connect_failure_sess env sv.w share_name hfresh hok]
          exact hinv
  | lookup id tcon_uninit =>
    rw [apply_op] at h
    rcases hl : ksmbd_tree_conn_lookup sv.w.sess id tcon_uninit with _ | ⟨s1, r⟩
    · rw [hl] at h; cases h
    · rw [hl] at h
      injection h with h
      rw [← h]
      rcases lookup_inv _ _ _ _ _ hl with hs | ⟨p, t, hmem, hs⟩
      · show session_inv s1
        rw [hs]; exact hinv
      · show session_inv s1
        rw [hs]
        exact session_inv_store _ p t _ hmem rfl hinv
  | put tcon =>
    rw [apply_op] at h
    unfold put_at at h
    rcases ht : tree_at sv.w.sess tcon with _ | t
    · rw [ht] at h; cases h
    · rw [ht] at h
      injection h with h
      rw [← h]
      exact session_inv_store _ tcon t _ (mem_of_tree_at _ _ _ ht) rfl hinv
  | disconnect tree_conn =>
    rw [apply_op] at h
    generalize hd : ksmbd_tree_conn_disconnect reply sv tree_conn = o at h
    cases o with
    | returned sv2 r2 =>
      injection h with h
      rw [← h]
      exact session_inv_disconnect reply sv sv2 tree_conn r2 hinv hd
    | asleep _ => cases h
    | wild => cases h
    | still_running => cases h
  | logoff fuel =>
    rw [apply_op] at h
    unfold ksmbd_tree_conn_session_logoff at h
    generalize hd : logoff_loop reply fuel sv 0 = o at h
    cases o with
    | returned sv2 r2 =>
      injection h with h
      rw [← h]
      exact session_inv_logoff_loop reply fuel sv 0 sv2 r2 hinv hd
    | asleep _ => cases h
    | wild => cases h
    | still_running => cases h

/-- A sequence of calls that all return keeps the invariant. -/
theorem session_inv_run_ops (reply : Nat → Int) :
    ∀ (ops : List session_op) (sv sv1 : Server),
      session_inv sv.w.sess → run_ops reply ops sv = some sv1 → session_inv sv1.w.sess := by
  intro ops
  induction ops with
  | nil =>
    intro sv sv1 hinv h
    injection h with h
    rw [← h]; exact hinv
  | cons op ops ih =>
    intro sv sv1 hinv h
    unfold run_ops at h
    rcases ha : apply_op reply op sv with _ | sv2
    · rw [ha] at h; cases h
    · rw [ha] at h
      exact ih sv2 sv1 (session_inv_apply_op reply op sv sv2 hinv ha) h

/-! ## Claim on the reachable states -/

/-- C15: in every state reached from a session without tree connects by a sequence of
calls of connect, lookup, put, disconnect and logoff that all return (the id allocator
answering only with ids that are not held, the memory allocator only with addresses
that are not in use), the ids of the tree connects in the list are pairwise distinct and
each of them is held in the id space of the session. -/
theorem reachable_ids_distinct_and_held (reply : Nat → Int) (ops : List session_op)
    (sv0 sv : Server) (hempty : sv0.w.sess.tree_conn_list = [])
    (hrun : run_ops reply ops sv0 = some sv) :
    distinct_ids sv.w.sess ∧ ∀ e ∈ sv.w.sess.tree_conn_list, e.2.id ∈ sv.w.sess.tree_conn_ida := by
  have h0 : session_inv sv0.w.sess := by
    refine ⟨?_, ?_, ?_⟩
    · unfold distinct_addresses; rw [hempty]; exact List.nodup_nil
    · unfold distinct_ids; rw [hempty]; exact List.nodup_nil
    · intro e he; rw [hempty] at he; cases he
  exact (session_inv_run_ops reply ops sv0 sv h0 hrun).2

/-- C15, at a concrete input: after `ex_ops` the session holds the tree connect with
id 2 only, and id 2 is held. -/
theorem reachable_ids_distinct_and_held_witness :
    ex_reached.w.sess.tree_conn_list.map (fun e => (e.1, e.2.id)) = [(8192, 2)] ∧
    distinct_ids ex_reached.w.sess ∧
    ∀ e ∈ ex_reached.w.sess.tree_conn_list, e.2.id ∈ ex_reached.w.sess.tree_conn_ida :=
  ⟨by decide,
    reachable_ids_distinct_and_held ex_reply ex_ops ex_server_empty ex_reached rfl rfl⟩

/-! ## Lemmas on interleavings -/

/-- A start state satisfies the accounting. -/
theorem race_inv_of_start (s : race_state) (h : race_start s) : race_inv s := by
  obtain ⟨hpc, hrc, hz, hf⟩ := h
  unfold race_inv
  rw [hpc]
  exact ⟨hrc, hz, hf⟩

/-- Every step keeps the accounting. -/
theorem race_inv_step (e : race_event) (s s1 : race_state) (hinv : race_inv s)
    (h : race_step e s = some s1) : race_inv s1 := by
  obtain ⟨tree, pc, holders, zeros, frees⟩ := s
  cases e with
  | lookup =>
    have hcases : s1 = ⟨tree, pc, holders, zeros, frees⟩ ∨
        (pc ≠ freed ∧ tree.refcount ≠ 0 ∧
          s1 = ⟨{ tree with refcount := tree.refcount + 1 }, pc, holders + 1, zeros, frees⟩) := by
      simp only [race_step, atomic_inc_not_zero] at h
      by_cases h1 : pc = freed
      · rw [if_pos h1] at h
        injection h with h
        exact Or.inl h.symm
      · rw [if_neg h1] at h
        by_cases h2 : tree.t_state ≠ TREE_CONNECTED
        · rw [if_pos h2] at h
          injection h with h
          exact Or.inl h.symm
        · rw [if_neg h2] at h
          by_cases h3 : tree.refcount = 0
          · simp only [h3, if_true] at h
            injection h with h
            left
            rw [← h]
          · simp only [h3, if_false, if_true] at h
            injection h with h
            exact Or.inr ⟨h1, h3, h.symm⟩
    rcases hcases with h | ⟨hpc, hnz, h⟩
    · rw [h]; exact hinv
    · rw [h]
      cases pc <;> simp only [race_inv] at hinv ⊢
      · obtain ⟨h1, h2, h3⟩ := hinv
        exact ⟨by push_cast; omega, h2, h3⟩
      · obtain ⟨h1, h2, h3⟩ := hinv
        rw [if_neg hnz] at h2
        have : ¬ tree.refcount + 1 = 0 := by omega
        rw [if_neg this]
        exact ⟨by push_cast; omega, h2, h3⟩
      · exact absurd hinv.1 hnz
      · exact absurd rfl hpc
  | put =>
    simp only [race_step, ksmbd_tree_connect_put, atomic_dec_return] at h
    by_cases h0 : holders = 0
    · rw [if_pos h0] at h; cases h
    · rw [if_neg h0] at h
      injection h with h
      subst h
      cases pc <;> simp only [race_inv] at hinv ⊢
      · obtain ⟨h1, h2, h3⟩ := hinv
        have hnz : ¬ tree.refcount - 1 = 0 := by omega
        rw [if_neg hnz]
        exact ⟨by omega, by omega, h3⟩
      · obtain ⟨h1, h2, h3⟩ := hinv
        have hnz : ¬ tree.refcount = 0 := by omega
        rw [if_neg hnz] at h2
        refine ⟨by omega, ?_, h3⟩
        rw [h2, Nat.zero_add]
      · exact absurd hinv.2.1 h0
      · exact absurd hinv.2.1 h0
  | mark_disconnected =>
    simp only [race_step] at h
    injection h with h
    subst h
    cases pc <;> simp only [race_inv] at hinv ⊢ <;> exact hinv
  | disconnect =>
    cases pc <;> simp only [race_step, atomic_dec_and_test] at h <;>
      simp only [race_inv] at hinv
    · obtain ⟨h1, h2, h3⟩ := hinv
      split_ifs at h with hz <;> injection h with h <;> subst h <;> simp only [race_inv]
      · have hz' : tree.refcount - 1 = 0 := by simpa using hz
        exact ⟨hz', by omega, by omega, h3⟩
      · have hz' : ¬ tree.refcount - 1 = 0 := by simpa using hz
        refine ⟨by omega, ?_, h3⟩
        rw [if_neg hz']
        exact h2
    · obtain ⟨h1, h2, h3⟩ := hinv
      split_ifs at h with hz
      injection h with h
      subst h
      simp only [race_inv]
      rw [if_pos hz] at h2
      exact ⟨hz, by omega, h2, h3⟩
    · injection h with h
      subst h
      simp only [race_inv]
      obtain ⟨h1, h2, h3, h4⟩ := hinv
      exact ⟨h1, h2, h3, by omega⟩
    · cases h

/-- Every interleaving keeps the accounting. -/
theorem race_inv_run : ∀ (es : List race_event) (s s1 : race_state),
    race_inv s → race_run es s = some s1 → race_inv s1 := by
  intro es
  induction es with
  | nil =>
    intro s s1 hinv h
    injection h with h
    rw [← h]; exact hinv
  | cons e es ih =>
    intro s s1 hinv h
    unfold race_run at h
    rcases hs : race_step e s with _ | s2
    · rw [hs] at h; cases h
    · rw [hs] at h
      exact ih s2 s1 (race_inv_step e s s2 hinv hs) h

/-- A store does not change the addresses of the list. -/
theorem store_addresses (sess : ksmbd_session) (p : Nat) (u : ksmbd_tree_connect) :
    (store_tree sess p u).tree_conn_list.map (fun e => e.1) =
      sess.tree_conn_list.map (fun e => e.1) := by
  unfold store_tree
  simp only [List.map_map]
  apply List.map_congr_left
  intro e _
  by_cases h : e.1 = p <;> simp [h]

/-- A disconnect entered with a refcount other than 1 goes to sleep in `wait_event`
with nothing of its cleanup done. -/
theorem disconnect_asleep (reply : Nat → Int) (sv : Server) (p : Nat) (t : ksmbd_tree_connect)
    (ht : tree_at sv.w.sess p = some t) (hr : t.refcount ≠ 1) :
    ∃ sv1, ksmbd_tree_conn_disconnect reply sv p = outcome.asleep sv1 ∧
      sv1.requests = sv.requests ∧ sv1.w.shares = sv.w.shares ∧
      sv1.w.sess.tree_conn_ida = sv.w.sess.tree_conn_ida ∧
      sv1.w.sess.tree_conn_list.map (fun e => e.1) =
        sv.w.sess.tree_conn_list.map (fun e => e.1) := by
  have hz : (atomic_dec_and_test t.refcount).1 = false := by
    simp only [atomic_dec_and_test, decide_eq_false_iff_not]
    omega
  have hdec : disconnect_dec sv.w.sess p =
      some (store_tree sv.w.sess p { t with refcount := (atomic_dec_and_test t.refcount).2 },
        false) := by
    unfold disconnect_dec
    rw [ht]
    dsimp only
    rw [hz]
  refine ⟨{ sv with w := { sv.w with sess := (enqueue_waiter
      (store_tree sv.w.sess p { t with refcount := (atomic_dec_and_test t.refcount).2 }) p) } },
    by unfold ksmbd_tree_conn_disconnect; rw [hdec], rfl, rfl, ?_, ?_⟩
  · show (enqueue_waiter _ p).tree_conn_ida = _
    unfold enqueue_waiter
    split <;> rfl
  · show (enqueue_waiter _ p).tree_conn_list.map (fun e => e.1) = _
    unfold enqueue_waiter
    split
    · rw [store_addresses]
    · rw [store_addresses, store_addresses]

/-! ## Claims on interleavings and on locking -/

/-- C16: in every state of every interleaving of lookups of the tree connect, puts by
holders and the steps of one disconnect, started with the refcount at the number of
holders plus one, the refcount is not negative; while the disconnect has not yet
decremented it, it is the number of holders plus one; at most one decrement has brought
it to zero, and one has exactly when it is zero; `ksmbd_free` has run at most once, and
has run exactly when the disconnect is finished, after the refcount reached zero. -/
theorem race_refcount_accounting (es : List race_event) (s0 s : race_state)
    (h0 : race_start s0) (hrun : race_run es s0 = some s) :
    0 ≤ s.tree.refcount ∧
    (s.pc = not_entered → s.tree.refcount = (s.holders : Int) + 1) ∧
    s.zeros ≤ 1 ∧ (s.zeros = 1 ↔ s.tree.refcount = 0) ∧
    s.frees ≤ 1 ∧ (s.frees = 1 ↔ s.pc = freed) ∧
    (s.frees = 1 → s.zeros = 1 ∧ s.tree.refcount = 0) := by
  have hinv := race_inv_run es s0 s (race_inv_of_start s0 h0) hrun
  obtain ⟨tree, pc, holders, zeros, frees⟩ := s
  dsimp only
  cases pc <;> simp only [race_inv] at hinv
  · obtain ⟨h1, h2, h3⟩ := hinv
    refine ⟨by omega, fun _ => h1, by omega, ?_, by omega, ?_, ?_⟩
    · constructor <;> intro h <;> omega
    · constructor <;> intro h
      · omega
      · cases h
    · intro h; omega
  · obtain ⟨h1, h2, h3⟩ := hinv
    refine ⟨by omega, (fun h => by cases h), ?_, ?_, by omega, ?_, ?_⟩
    · rw [h2]; split <;> omega
    · rw [h2]
      by_cases hz : tree.refcount = 0 <;> simp [hz]
    · constructor <;> intro h
      · omega
      · cases h
    · intro h; omega
  · obtain ⟨h1, h2, h3, h4⟩ := hinv
    refine ⟨by omega, (fun h => by cases h), by omega, ?_, by omega, ?_, ?_⟩
    · constructor <;> intro _ <;> assumption
    · constructor <;> intro h
      · omega
      · cases h
    · intro h; omega
  · obtain ⟨h1, h2, h3, h4⟩ := hinv
    refine ⟨by omega, (fun h => by cases h), by omega, ?_, by omega, ?_, ?_⟩
    · constructor <;> intro _ <;> assumption
    · constructor <;> intro _
      · rfl
      · exact h4
    · intro _; exact ⟨h3, h1⟩

/-- C16, at a concrete input: two lookups and their puts around the decrement of the
disconnect; at the end the refcount is 0, it reached zero once and the object was freed
once. -/
theorem race_refcount_accounting_witness :
    race_run ex_race_events ex_race_start = some ex_race_end ∧
    0 ≤ ex_race_end.tree.refcount ∧
    (ex_race_end.pc = not_entered →
      ex_race_end.tree.refcount = (ex_race_end.holders : Int) + 1) ∧
    ex_race_end.zeros ≤ 1 ∧ (ex_race_end.zeros = 1 ↔ ex_race_end.tree.refcount = 0) ∧
    ex_race_end.frees ≤ 1 ∧ (ex_race_end.frees = 1 ↔ ex_race_end.pc = freed) ∧
    (ex_race_end.frees = 1 → ex_race_end.zeros = 1 ∧ ex_race_end.tree.refcount = 0) :=
  ⟨by decide,
    race_refcount_accounting ex_race_events ex_race_start ex_race_end (by decide)
      (by decide)⟩

/-- C17: in every state of every interleaving started before the disconnect, once the
disconnecting task is past the wait (before, during or after its cleanup) the refcount
is zero.  While it waits the refcount is the number of holders, and it gets past the
wait exactly when the refcount is zero.  Entered with refcount 1 it goes past the wait
at once; entered with another refcount it waits.  Run with no other task,
`ksmbd_tree_conn_disconnect` entered with a refcount other than 1 sleeps with none of
its cleanup done: no request sent, no id released, no entry removed, no share reference
given back. -/
theorem disconnect_cleanup_only_at_zero (es : List race_event) (s0 s : race_state)
    (h0 : race_start s0) (hrun : race_run es s0 = some s) :
    ((s.pc = past_wait ∨ s.pc = freed) → s.tree.refcount = 0) ∧
    (s.pc = waiting →
      s.tree.refcount = (s.holders : Int) ∧
      ((race_step race_event.disconnect s).isSome = true ↔ s.tree.refcount = 0)) ∧
    (s.pc = not_entered → s.tree.refcount = 1 →
      (race_step race_event.disconnect s).map (fun s1 => s1.pc) = some past_wait) ∧
    (s.pc = not_entered → s.tree.refcount ≠ 1 →
      (race_step race_event.disconnect s).map (fun s1 => s1.pc) = some waiting) ∧
    (∀ (reply : Nat → Int) (sv : Server) (p : Nat) (t : ksmbd_tree_connect),
      tree_at sv.w.sess p = some t → t.refcount ≠ 1 →
      ∃ sv1, ksmbd_tree_conn_disconnect reply sv p = outcome.asleep sv1 ∧
        sv1.requests = sv.requests ∧ sv1.w.shares = sv.w.shares ∧
        sv1.w.sess.tree_conn_ida = sv.w.sess.tree_conn_ida ∧
        sv1.w.sess.tree_conn_list.map (fun e => e.1) =
          sv.w.sess.tree_conn_list.map (fun e => e.1)) := by
  have hinv := race_inv_run es s0 s (race_inv_of_start s0 h0) hrun
  obtain ⟨tree, pc, holders, zeros, frees⟩ := s
  dsimp only
  refine ⟨?_, ?_, ?_, ?_, disconnect_asleep⟩
  · rintro (h | h) <;> subst h <;> simp only [race_inv] at hinv <;> exact hinv.1
  · intro h
    subst h
    simp only [race_inv] at hinv
    refine ⟨hinv.1, ?_⟩
    simp only [race_step]
    by_cases hz : tree.refcount = 0 <;> simp [hz]
  · intro h hr
    subst h
    simp [race_step, atomic_dec_and_test, hr]
  · intro h hr
    subst h
    have : ¬ tree.refcount - 1 = 0 := by omega
    simp [race_step, atomic_dec_and_test, this]

/-- C17, at a concrete input: entered with refcount 2 and one holder, the disconnecting
task waits with the refcount at 1 and cannot go on. -/
theorem disconnect_cleanup_only_at_zero_witness :
    race_run [race_event.disconnect] ex_race_held = some ex_race_waiting ∧
    race_step race_event.disconnect ex_race_waiting = none ∧
    ((ex_race_waiting.pc = past_wait ∨ ex_race_waiting.pc = freed) →
      ex_race_waiting.tree.refcount = 0) ∧
    (ex_race_waiting.pc = waiting →
      ex_race_waiting.tree.refcount = (ex_race_waiting.holders : Int) ∧
      ((race_step race_event.disconnect ex_race_waiting).isSome = true ↔
        ex_race_waiting.tree.refcount = 0)) ∧
    (ex_race_waiting.pc = not_entered → ex_race_waiting.tree.refcount = 1 →
      (race_step race_event.disconnect ex_race_waiting).map (fun s1 => s1.pc) =
        some past_wait) ∧
    (ex_race_waiting.pc = not_entered → ex_race_waiting.tree.refcount ≠ 1 →
      (race_step race_event.disconnect ex_race_waiting).map (fun s1 => s1.pc) =
        some waiting) ∧
    (∀ (reply : Nat → Int) (sv : Server) (p : Nat) (t : ksmbd_tree_connect),
      tree_at sv.w.sess p = some t → t.refcount ≠ 1 →
      ∃ sv1, ksmbd_tree_conn_disconnect reply sv p = outcome.asleep sv1 ∧
        sv1.requests = sv.requests ∧ sv1.w.shares = sv.w.shares ∧
        sv1.w.sess.tree_conn_ida = sv.w.sess.tree_conn_ida ∧
        sv1.w.sess.tree_conn_list.map (fun e => e.1) =
          sv.w.sess.tree_conn_list.map (fun e => e.1)) :=
  ⟨by decide, by decide,
    disconnect_cleanup_only_at_zero [race_event.disconnect] ex_race_held ex_race_waiting
      (by decide) (by decide)⟩

/-- C18 (failing input): a connect that succeeds calls `list_add` and takes no lock, so
the insertion happens with `tree_conns_lock` not held; a pass of the logoff loop reads
the list (`list_empty`, then the head) before it takes the lock.  The scan of the
lookup and the `list_del` of the disconnect happen with the lock held. -/
theorem connect_inserts_without_lock :
    connect_lock_events ex_env_ok ex_world "shareA" = [lock_event.list_add] ∧
    lock_discipline lock_mode.unlocked (connect_lock_events ex_env_ok ex_world "shareA") =
      false ∧
    lock_discipline lock_mode.unlocked (logoff_pass_lock_events (some TREE_CONNECTED)) =
      false ∧
    lock_discipline lock_mode.unlocked (logoff_pass_lock_events none) = false ∧
    lock_discipline lock_mode.unlocked lookup_lock_events = true ∧
    lock_discipline lock_mode.unlocked disconnect_lock_events = true := by
  decide

end TreeConnect
